import Mathlib

/-! Tailing-sidecar admission handler.

A shallow embedding of `operator/handler/handler.go`: the Pod data model
(the part of `corev1` the handler reads or writes), the helper functions
and the reconciliation pass of `PodExtender.Handle`, followed by the
properties of the pass.

Go strings are Lean strings, Go slices are lists, `fmt.Sprintf` with `%d`
on a non-negative `int` is the decimal representation of a natural number,
and a Go map is an association list with distinct keys (`AList`).
-/

namespace TailingSidecar

/-! ## Data model -/

/-- The `corev1.EnvVar` fields: name, literal value, and the reference a
value may come from instead. -/
structure EnvVar where
  Name : String
  Value : String
  ValueFrom : Option String := none
  deriving DecidableEq, Repr

/-- The `corev1.VolumeMount` fields. -/
structure VolumeMount where
  Name : String
  ReadOnly : Bool := false
  MountPath : String := ""
  SubPath : String := ""
  deriving DecidableEq, Repr

/-- The `corev1.Container` fields the handler reads or writes, with the
command line standing for the fields it leaves alone. -/
structure Container where
  Name : String
  Image : String := ""
  Command : List String := []
  Args : List String := []
  Env : List EnvVar := []
  VolumeMounts : List VolumeMount := []
  deriving DecidableEq, Repr

/-- The `corev1.HostPathVolumeSource`: a path on the node and the optional
host-path type. -/
structure HostPathVolumeSource where
  Path : String
  Type_ : Option String := none
  deriving DecidableEq, Repr

/-- The `corev1.VolumeSource`: at most one of its members is set. -/
structure VolumeSource where
  HostPath : Option HostPathVolumeSource := none
  EmptyDir : Option String := none
  PersistentVolumeClaim : Option String := none
  deriving DecidableEq, Repr

/-- The `corev1.Volume`: a name and its source. -/
structure Volume where
  Name : String
  VolumeSource : VolumeSource := {}
  deriving DecidableEq, Repr

/-- The `tailingsidecarv1.SidecarConfig`: the file to tail and the name of
the volume mount that holds it. -/
structure SidecarConfig where
  File : String
  Volume : String
  deriving DecidableEq, Repr

/-- A Go `map[string]SidecarConfig`. -/
abbrev ConfigMap := AList (fun _ : String => SidecarConfig)

/-- The `tailingsidecarv1.TailingSidecarSpec`. -/
structure TailingSidecarSpec where
  Configs : ConfigMap

/-- The `tailingsidecarv1.TailingSidecar` resource: its name and its spec. -/
structure TailingSidecarResource where
  Name : String := ""
  Spec : TailingSidecarSpec

/-- The `metav1.ObjectMeta` fields the handler reads. -/
structure ObjectMeta where
  Name : String := ""
  GenerateName : String := ""
  Namespace : String := ""
  Annotations : AList (fun _ : String => String) := ∅

/-- The `corev1.PodSpec`: volumes and containers, with the init containers
and the node name standing for the fields the handler leaves alone. -/
structure PodSpec where
  Volumes : List Volume := []
  InitContainers : List Container := []
  Containers : List Container := []
  NodeName : String := ""
  deriving DecidableEq, Repr

/-- The `corev1.Pod`. -/
structure Pod where
  ObjectMeta : ObjectMeta := {}
  Spec : PodSpec := {}

/-! ## Constants -/

def sidecarEnv : String := "PATH_TO_TAIL"

def sidecarContainerPrefix : String := "tailing-sidecar"

/-- The value of `fmt.Sprintf(sidecarContainerName, n)`, the format being
`"tailing-sidecar%d"`. -/
def sidecarContainerName (n : Nat) : String := "tailing-sidecar" ++ toString n

/-- The value of `fmt.Sprintf(hostPathDirPath, a, b)`, the format being
`"/var/log/tailing-sidecar-fluentbit/%s/%s"`. -/
def hostPathDirPath (a b : String) : String :=
  "/var/log/tailing-sidecar-fluentbit/" ++ a ++ "/" ++ b

/-- The value of `fmt.Sprintf(hostPathVolumeName, n)`, the format being
`"volume-sidecar%d"`. -/
def hostPathVolumeName (n : Nat) : String := "volume-sidecar" ++ toString n

def hostPathMountPath : String := "/tailing-sidecar/var"

/-- The value of `corev1.HostPathDirectoryOrCreate`. -/
def hostPathType : String := "DirectoryOrCreate"

/-! ## String helpers of the Go standard library -/

/-- Go `strings.HasPrefix s pre`. -/
def HasPrefix (s pre : String) : Bool := pre.data.isPrefixOf s.data

/-- Go `strings.TrimRight s cutset`: `s` without its trailing characters
that occur in `cutset`. -/
def TrimRight (s cutset : String) : String :=
  String.mk (s.data.rdropWhile (fun ch => cutset.data.contains ch))

/-! ## Helper functions of the handler -/

def isSidecarEnvAvailable (envs : List EnvVar) (envValue : String) : Bool :=
  match envs with
  | [] => false
  | env :: rest =>
    if env.Name = sidecarEnv ∧ env.Value = envValue then true
    else isSidecarEnvAvailable rest envValue

def isVolumeMountAvailable (volumeMounts : List VolumeMount) (volumeName : String) : Bool :=
  match volumeMounts with
  | [] => false
  | volumeMount :: rest =>
    if volumeMount.Name = volumeName then true
    else isVolumeMountAvailable rest volumeName

def isSidecarAvailable (containers : List Container) (config : SidecarConfig) : Bool :=
  match containers with
  | [] => false
  | container :: rest =>
    if HasPrefix container.Name sidecarContainerPrefix ∧
        isSidecarEnvAvailable container.Env config.File ∧
        isVolumeMountAvailable container.VolumeMounts config.Volume then true
    else isSidecarAvailable rest config

/-- The inner loop of `getVolume`: the first mount of one container with the
given name. -/
def getVolumeIn (volumeMounts : List VolumeMount) (volumeName : String) : Option VolumeMount :=
  match volumeMounts with
  | [] => none
  | volume :: rest =>
    if volume.Name = volumeName then some volume else getVolumeIn rest volumeName

def getVolume (containers : List Container) (volumeName : String) : Except String VolumeMount :=
  match containers with
  | [] => .error ("Volume was not found, volume: " ++ volumeName)
  | container :: rest =>
    match getVolumeIn container.VolumeMounts volumeName with
    | some volume => .ok volume
    | none => getVolume rest volumeName

def getTailingSidecars (containers : List Container) : List Container :=
  match containers with
  | [] => []
  | container :: rest =>
    if HasPrefix container.Name sidecarContainerPrefix then
      container :: getTailingSidecars rest
    else getTailingSidecars rest

/-- The inner loop of `removeDeletedSidecars`: one copy of the container is
appended for every config it matches. -/
def keepPerConfig (container : Container) (configs : List SidecarConfig)
    (podContainers : List Container) : List Container :=
  match configs with
  | [] => podContainers
  | config :: rest =>
    if isSidecarEnvAvailable container.Env config.File ∧
        isVolumeMountAvailable container.VolumeMounts config.Volume then
      keepPerConfig container rest (podContainers ++ [container])
    else keepPerConfig container rest podContainers

/-- The outer loop of `removeDeletedSidecars`, with the slice built so far. -/
def removeDeletedSidecarsFrom (containers : List Container) (configs : List SidecarConfig)
    (podContainers : List Container) : List Container :=
  match containers with
  | [] => podContainers
  | container :: rest =>
    if ¬ HasPrefix container.Name sidecarContainerPrefix then
      removeDeletedSidecarsFrom rest configs (podContainers ++ [container])
    else
      removeDeletedSidecarsFrom rest configs (keepPerConfig container configs podContainers)

def removeDeletedSidecars (containers : List Container) (configs : List SidecarConfig) :
    List Container :=
  removeDeletedSidecarsFrom containers configs []

/-- The map assignments of one resource in `joinTailinSidecarConfigs`. -/
def joinConfigs (sidecarConfigs : ConfigMap) (entries : List (Sigma fun _ : String => SidecarConfig)) :
    ConfigMap :=
  match entries with
  | [] => sidecarConfigs
  | entry :: rest => joinConfigs (sidecarConfigs.insert entry.1 entry.2) rest

/-- The outer loop of `joinTailinSidecarConfigs`, with the map built so far. -/
def joinTailinSidecarConfigsFrom (tailinSidecars : List TailingSidecarResource)
    (sidecarConfigs : ConfigMap) : ConfigMap :=
  match tailinSidecars with
  | [] => sidecarConfigs
  | tailinSidecar :: rest =>
    joinTailinSidecarConfigsFrom rest (joinConfigs sidecarConfigs tailinSidecar.Spec.Configs.entries)

def joinTailinSidecarConfigs (tailinSidecars : List TailingSidecarResource) : ConfigMap :=
  joinTailinSidecarConfigsFrom tailinSidecars ∅

/-- The function `setHostPath`; `token` is the value of `guuid.New().String()`. -/
def setHostPath (pod : Pod) (token : String) : String :=
  if pod.ObjectMeta.Namespace ≠ "" ∧ pod.ObjectMeta.Name ≠ "" then
    hostPathDirPath pod.ObjectMeta.Namespace pod.ObjectMeta.Name
  else
    hostPathDirPath (TrimRight pod.ObjectMeta.GenerateName "-") token

/-! ## The reconciliation pass of `Handle` -/

/-- The variables the config loop of `Handle` updates: `pod.Spec.Volumes`,
the slice `containers` of new sidecars, and `sidecarID`. -/
structure LoopState where
  volumes : List Volume
  containers : List Container
  sidecarID : Nat
  deriving DecidableEq, Repr

/-- One iteration of the config loop of `Handle`; `podContainers` is
`pod.Spec.Containers`, which the loop does not assign. -/
def configStep (image hostPathDir : String) (podContainers : List Container)
    (st : LoopState) (config : SidecarConfig) : LoopState :=
  if isSidecarAvailable podContainers config then st
  else
    match getVolume podContainers config.Volume with
    | .error _ => st
    | .ok volume =>
      let volumeName := hostPathVolumeName st.sidecarID
      let containerName := sidecarContainerName st.sidecarID
      let hostPath := hostPathDir ++ "/" ++ containerName
      let container : Container :=
        { Image := image
          Name := containerName
          Env := [{ Name := sidecarEnv, Value := config.File }]
          VolumeMounts := [volume, { Name := volumeName, MountPath := hostPathMountPath }] }
      { volumes := st.volumes ++
          [{ Name := volumeName
             VolumeSource := { HostPath := some { Path := hostPath, Type_ := some hostPathType } } }]
        containers := st.containers ++ [container]
        sidecarID := st.sidecarID + 1 }

/-- The config loop of `Handle`. -/
def configLoop (image hostPathDir : String) (podContainers : List Container)
    (st : LoopState) (configs : List SidecarConfig) : LoopState :=
  match configs with
  | [] => st
  | config :: rest =>
    configLoop image hostPathDir podContainers
      (configStep image hostPathDir podContainers st config) rest

/-- The state the config loop of `Handle` ends in, started from the Pod's
volumes, no new container and the number of sidecars in the Pod. -/
def runConfigLoop (image hostPathDir : String) (pod : Pod) (configs : List SidecarConfig) :
    LoopState :=
  configLoop image hostPathDir pod.Spec.Containers
    { volumes := pod.Spec.Volumes
      containers := []
      sidecarID := (getTailingSidecars pod.Spec.Containers).length } configs

/-- The block of `Handle` guarded by `len(configs) != 0`: the Pod after
the sidecars were added and the deleted ones removed. -/
def reconcile (image hostPathDir : String) (pod : Pod) (configs : List SidecarConfig) : Pod :=
  if configs.length ≠ 0 then
    let st := runConfigLoop image hostPathDir pod configs
    let podContainers := removeDeletedSidecars pod.Spec.Containers configs
    { pod with Spec := { pod.Spec with Volumes := st.volumes
                                       Containers := podContainers ++ st.containers } }
  else pod

/-! ## The handler -/

/-- The fields of `admission.Request` the handler reads: the raw object and
the operation. -/
structure Request where
  Raw : String
  Operation : String := ""

/-- The responses `Handle` returns: `admission.Errored` with its HTTP status,
or `admission.PatchResponseFromRaw` of the raw object and the marshalled Pod. -/
inductive Response where
  | Errored (code : Nat) (err : String)
  | PatchResponseFromRaw (original marshaled : String)
  deriving DecidableEq, Repr

/-- The `PodExtender` together with what `Handle` calls outside
`handler.go`: the decoder, the client's `List` (the items it left in the
list and its error), the annotation key `sidecarAnnotation` and the function
`getConfigs` of the package, the generated token and `json.Marshal`. -/
structure PodExtender where
  TailingSidecarImage : String
  decode : Request → Except String Pod
  list : String → List TailingSidecarResource × Option String
  sidecarAnnotation : String
  getConfigs : AList (fun _ : String => String) → ConfigMap → List SidecarConfig
  token : String
  marshal : Pod → Except String String

/-- The Pod `Handle` marshals: the decoded Pod, reconciled when it carries
the annotation. -/
def extendPod (e : PodExtender) (pod : Pod) : Pod :=
  if (pod.ObjectMeta.Annotations.lookup e.sidecarAnnotation).isSome then
    let tailingSidecarList := e.list pod.ObjectMeta.Namespace
    let tailingSidecarConfigs := joinTailinSidecarConfigs tailingSidecarList.1
    let configs := e.getConfigs pod.ObjectMeta.Annotations tailingSidecarConfigs
    let hostPathDir := setHostPath pod e.token
    reconcile e.TailingSidecarImage hostPathDir pod configs
  else pod

def Handle (e : PodExtender) (req : Request) : Response :=
  match e.decode req with
  | .error err => .Errored 400 err
  | .ok pod =>
    match e.marshal (extendPod e pod) with
    | .error err => .Errored 500 err
    | .ok marshaledPod => .PatchResponseFromRaw req.Raw marshaledPod

/-! ## Vocabulary of the properties -/

/-- The test `removeDeletedSidecars` and `isSidecarAvailable` apply to one
container and one config: some `PATH_TO_TAIL` value of the container is the
config's file and some mount of the container has the config's volume name. -/
def matchesConfig (container : Container) (config : SidecarConfig) : Bool :=
  isSidecarEnvAvailable container.Env config.File &&
    isVolumeMountAvailable container.VolumeMounts config.Volume

/-- The name of the container starts with the sidecar prefix. -/
def isSidecar (container : Container) : Bool :=
  HasPrefix container.Name sidecarContainerPrefix

/-- All volume mounts of the containers, in container order then mount order. -/
def allMounts (containers : List Container) : List VolumeMount :=
  containers.flatMap (fun c => c.VolumeMounts)

/-- The first mount with the given name, in container order then mount order. -/
def firstMountNamed (containers : List Container) (volumeName : String) : Option VolumeMount :=
  (allMounts containers).find? (fun m => m.Name = volumeName)

/-- The sidecar container `Handle` builds for identifier `n`, file `file`
and the resolved mount `volume`. -/
def sidecarContainer (image : String) (n : Nat) (file : String) (volume : VolumeMount) :
    Container :=
  { Image := image
    Name := sidecarContainerName n
    Env := [{ Name := sidecarEnv, Value := file }]
    VolumeMounts := [volume, { Name := hostPathVolumeName n, MountPath := hostPathMountPath }] }

/-- The host-path volume `Handle` builds for identifier `n`. -/
def sidecarVolume (hostPathDir : String) (n : Nat) : Volume :=
  { Name := hostPathVolumeName n
    VolumeSource :=
      { HostPath := some { Path := hostPathDir ++ "/" ++ sidecarContainerName n
                           Type_ := some hostPathType } } }

/-- A config the loop builds a sidecar for: no sidecar of the Pod matches it
and some container mounts its volume. -/
def needsSidecar (podContainers : List Container) (config : SidecarConfig) : Bool :=
  !isSidecarAvailable podContainers config &&
    (firstMountNamed podContainers config.Volume).isSome

/-- The containers `removeDeletedSidecars` would return if it kept each
container at most once: the filter by "no sidecar prefix, or some config
matches". -/
def keptOnce (containers : List Container) (configs : List SidecarConfig) : List Container :=
  containers.filter (fun c => !isSidecar c || configs.any (fun config => matchesConfig c config))

/-- The copies of one container `removeDeletedSidecars` returns: the
container itself when it has no sidecar prefix, else one copy for every
config it matches. -/
def keptCopies (configs : List SidecarConfig) (container : Container) : List Container :=
  if isSidecar container then
    List.replicate (configs.countP (fun config => matchesConfig container config)) container
  else [container]

/-- The sidecars the config loop builds, as (identifier, config, resolved
mount), in creation order, the next free identifier being `n`. -/
def created (podContainers : List Container) (n : Nat) :
    List SidecarConfig → List (Nat × SidecarConfig × VolumeMount)
  | [] => []
  | config :: rest =>
    if isSidecarAvailable podContainers config then created podContainers n rest
    else
      match firstMountNamed podContainers config.Volume with
      | none => created podContainers n rest
      | some volume => (n, config, volume) :: created podContainers (n + 1) rest

/-- The sidecars one pass over the Pod builds for the configs. -/
def createdBy (pod : Pod) (configs : List SidecarConfig) :
    List (Nat × SidecarConfig × VolumeMount) :=
  created pod.Spec.Containers (getTailingSidecars pod.Spec.Containers).length configs

/-- The config of the last resource of the list that declares `name`. -/
def lastDeclared (tailinSidecars : List TailingSidecarResource) (name : String) :
    Option SidecarConfig :=
  match tailinSidecars.reverse.find? (fun r => (r.Spec.Configs.lookup name).isSome) with
  | some r => r.Spec.Configs.lookup name
  | none => none

/-! ## Scenario data -/

/-- The application container of the scenarios: it mounts `app-data`. -/
def appContainer : Container :=
  { Name := "app", Image := "nginx"
    VolumeMounts := [{ Name := "app-data", MountPath := "/var/log" }] }

/-- The Pod of Scenario A: one application container, one volume. -/
def scenarioPod : Pod :=
  { ObjectMeta := { Name := "web", Namespace := "prod" }
    Spec := { Volumes := [{ Name := "app-data", VolumeSource := { EmptyDir := some "" } }]
              Containers := [appContainer] } }

/-- The config of Scenario A. -/
def appConfig : SidecarConfig := { File := "/var/log/app.log", Volume := "app-data" }

/-- The config of Scenario D: its volume is mounted by no container. -/
def missingConfig : SidecarConfig := { File := "/var/log/app.log", Volume := "missing-vol" }

/-- The Pod of Scenario A as a controller would submit it: same namespace and
name, with a generate-name and a node. -/
def scenarioPodAgain : Pod :=
  { ObjectMeta := { Name := "web", Namespace := "prod", GenerateName := "web-" }
    Spec := { Containers := [appContainer], NodeName := "node-1" } }

/-- The sidecar Scenario A injects into the scenario Pod. -/
def scenarioSidecar : Container :=
  { Name := "tailing-sidecar0", Image := "sidecar:1"
    Env := [{ Name := "PATH_TO_TAIL", Value := "/var/log/app.log" }]
    VolumeMounts := [{ Name := "app-data", MountPath := "/var/log" },
                     { Name := "volume-sidecar0", MountPath := "/tailing-sidecar/var" }] }

/-- The host-path volume Scenario A adds to the scenario Pod. -/
def scenarioVolume : Volume :=
  { Name := "volume-sidecar0"
    VolumeSource :=
      { HostPath := some { Path := "/var/log/tailing-sidecar-fluentbit/prod/web/tailing-sidecar0"
                           Type_ := some "DirectoryOrCreate" } } }

/-- The Pod Scenario A returns: the scenario Pod with its sidecar and volume. -/
def scenarioPodReconciled : Pod :=
  { ObjectMeta := { Name := "web", Namespace := "prod" }
    Spec := { Volumes := [{ Name := "app-data", VolumeSource := { EmptyDir := some "" } },
                          scenarioVolume]
              Containers := [appContainer, scenarioSidecar] } }

/-- A config for the same file whose volume is the staging mount of
`tailing-sidecar0`. -/
def stagingConfig : SidecarConfig := { File := "/var/log/app.log", Volume := "volume-sidecar0" }

/-- A config for another file whose volume is the staging mount of
`tailing-sidecar0`: no container of the scenario Pod mounts it. -/
def stagingOtherConfig : SidecarConfig :=
  { File := "/var/log/other.log", Volume := "volume-sidecar0" }

/-- A config for another file of the application volume. -/
def otherConfig : SidecarConfig := { File := "/var/log/other.log", Volume := "app-data" }

/-- The scenario Pod carrying the trigger annotation. -/
def annotatedPod : Pod :=
  { ObjectMeta :=
      { Name := "web", Namespace := "prod"
        Annotations := (∅ : AList (fun _ : String => String)).insert "tailing-sidecar" "true" }
    Spec := { Volumes := [{ Name := "app-data", VolumeSource := { EmptyDir := some "" } }]
              Containers := [appContainer] } }

/-- The configuration resource of Scenario A: the name `app` declares the
config of the application log. -/
def scenarioResource : TailingSidecarResource :=
  { Name := "app-logs", Spec := { Configs := (∅ : ConfigMap).insert "app" appConfig } }

/-- An extender for the scenarios: every request decodes to the annotated
Pod, the desired configs are those of the resources, and the marshalled Pod
is the list of its container names. -/
def scenarioExtender : PodExtender :=
  { TailingSidecarImage := "sidecar:1"
    decode := fun _ => .ok annotatedPod
    list := fun _ => ([scenarioResource], none)
    sidecarAnnotation := "tailing-sidecar"
    getConfigs := fun _ sidecarConfigs => sidecarConfigs.entries.map (fun entry => entry.2)
    token := "t0"
    marshal := fun pod => .ok (String.intercalate "," (pod.Spec.Containers.map (fun c => c.Name))) }

/-- The scenario extender for requests that decode to the scenario Pod,
which carries no annotation. -/
def plainExtender : PodExtender :=
  { scenarioExtender with decode := fun _ => .ok scenarioPod }

/-- The scenario request. -/
def scenarioRequest : Request := { Raw := "app", Operation := "CREATE" }

/-- A Pod created from a template: no name yet, a generate-name ending in
separators. -/
def generatedPod : Pod :=
  { ObjectMeta := { GenerateName := "web-7d9f--", Namespace := "prod" }
    Spec := { Containers := [appContainer] } }

/-- The sidecar for the other file, carrying identifier 1. -/
def otherSidecar : Container :=
  { Name := "tailing-sidecar1", Image := "sidecar:1"
    Env := [{ Name := "PATH_TO_TAIL", Value := "/var/log/other.log" }]
    VolumeMounts := [{ Name := "app-data", MountPath := "/var/log" },
                     { Name := "volume-sidecar1", MountPath := "/tailing-sidecar/var" }] }

/-- The scenario Pod after a pass for the application log and the other
file, and a second pass for the other file alone: the sidecar with
identifier 0 is gone, the one with identifier 1 is kept. -/
def podAfterRemoval : Pod :=
  { ObjectMeta := { Name := "web", Namespace := "prod" }
    Spec :=
      { Volumes :=
          [{ Name := "app-data", VolumeSource := { EmptyDir := some "" } },
           scenarioVolume,
           { Name := "volume-sidecar1"
             VolumeSource :=
               { HostPath := some
                   { Path := "/var/log/tailing-sidecar-fluentbit/prod/web/tailing-sidecar1"
                     Type_ := some "DirectoryOrCreate" } } }]
        Containers := [appContainer, otherSidecar] } }

/-! ## Properties of the helper functions -/

theorem isSidecarEnvAvailable_iff (envs : List EnvVar) (envValue : String) :
    isSidecarEnvAvailable envs envValue = true ↔
      ∃ env ∈ envs, env.Name = sidecarEnv ∧ env.Value = envValue := by
  induction envs with
  | nil => simp [isSidecarEnvAvailable]
  | cons env rest ih =>
    unfold isSidecarEnvAvailable
    by_cases h : env.Name = sidecarEnv ∧ env.Value = envValue
    · simp only [if_pos h, true_iff]
      exact ⟨env, List.mem_cons_self _ _, h⟩
    · simp only [if_neg h, ih, List.mem_cons, exists_eq_or_imp]
      constructor
      · intro hx; exact Or.inr hx
      · rintro (hx | hx)
        · exact absurd hx h
        · exact hx

theorem isVolumeMountAvailable_iff (volumeMounts : List VolumeMount) (volumeName : String) :
    isVolumeMountAvailable volumeMounts volumeName = true ↔
      ∃ m ∈ volumeMounts, m.Name = volumeName := by
  induction volumeMounts with
  | nil => simp [isVolumeMountAvailable]
  | cons m rest ih =>
    unfold isVolumeMountAvailable
    by_cases h : m.Name = volumeName
    · simp only [if_pos h, true_iff]
      exact ⟨m, List.mem_cons_self _ _, h⟩
    · simp only [if_neg h, ih, List.mem_cons, exists_eq_or_imp]
      constructor
      · intro hx; exact Or.inr hx
      · rintro (hx | hx)
        · exact absurd hx h
        · exact hx

theorem isSidecarAvailable_iff (containers : List Container) (config : SidecarConfig) :
    isSidecarAvailable containers config = true ↔
      ∃ c ∈ containers, isSidecar c = true ∧ matchesConfig c config = true := by
  induction containers with
  | nil => simp [isSidecarAvailable]
  | cons c rest ih =>
    unfold isSidecarAvailable
    by_cases h : HasPrefix c.Name sidecarContainerPrefix = true ∧
        isSidecarEnvAvailable c.Env config.File = true ∧
        isVolumeMountAvailable c.VolumeMounts config.Volume = true
    · simp only [if_pos h, true_iff]
      refine ⟨c, List.mem_cons_self _ _, h.1, ?_⟩
      simp [matchesConfig, h.2.1, h.2.2]
    · simp only [if_neg h, ih, List.mem_cons, exists_eq_or_imp]
      constructor
      · intro hx; exact Or.inr hx
      · rintro (hx | hx)
        · exfalso; apply h
          simp only [isSidecar, matchesConfig, Bool.and_eq_true] at hx
          exact ⟨hx.1, hx.2.1, hx.2.2⟩
        · exact hx

theorem getTailingSidecars_eq_filter (containers : List Container) :
    getTailingSidecars containers = containers.filter isSidecar := by
  induction containers with
  | nil => rfl
  | cons c rest ih =>
    unfold getTailingSidecars
    by_cases h : HasPrefix c.Name sidecarContainerPrefix = true
    · simp [h, ih, isSidecar, List.filter_cons]
    · simp [h, ih, isSidecar, List.filter_cons]

theorem getVolumeIn_eq_find (volumeMounts : List VolumeMount) (volumeName : String) :
    getVolumeIn volumeMounts volumeName =
      volumeMounts.find? (fun m => m.Name = volumeName) := by
  induction volumeMounts with
  | nil => rfl
  | cons m rest ih =>
    unfold getVolumeIn
    by_cases h : m.Name = volumeName
    · simp [h]
    · simp [h, ih]

theorem getVolume_eq (containers : List Container) (volumeName : String) :
    getVolume containers volumeName =
      match firstMountNamed containers volumeName with
      | some volume => .ok volume
      | none => .error ("Volume was not found, volume: " ++ volumeName) := by
  induction containers with
  | nil => rfl
  | cons c rest ih =>
    unfold getVolume
    rw [getVolumeIn_eq_find]
    simp only [firstMountNamed, allMounts, List.flatMap_cons, List.find?_append]
    cases hf : c.VolumeMounts.find? (fun m => m.Name = volumeName) with
    | some v => simp
    | none =>
      simp only [Option.none_or]
      rw [ih]; rfl

theorem matchesConfig_iff (c : Container) (config : SidecarConfig) :
    matchesConfig c config = true ↔
      (∃ env ∈ c.Env, env.Name = sidecarEnv ∧ env.Value = config.File) ∧
      (∃ m ∈ c.VolumeMounts, m.Name = config.Volume) := by
  simp only [matchesConfig, Bool.and_eq_true, isSidecarEnvAvailable_iff,
    isVolumeMountAvailable_iff]

theorem keepPerConfig_eq (c : Container) (configs : List SidecarConfig)
    (acc : List Container) :
    keepPerConfig c configs acc =
      acc ++ List.replicate (configs.countP (fun config => matchesConfig c config)) c := by
  induction configs generalizing acc with
  | nil => simp [keepPerConfig]
  | cons config rest ih =>
    unfold keepPerConfig
    by_cases h : isSidecarEnvAvailable c.Env config.File = true ∧
        isVolumeMountAvailable c.VolumeMounts config.Volume = true
    · have hm : matchesConfig c config = true := by
        simp [matchesConfig, h.1, h.2]
      rw [if_pos h, ih, List.countP_cons_of_pos _ _ hm, List.replicate_succ]
      simp
    · have hm : ¬ matchesConfig c config = true := by
        simpa [matchesConfig] using h
      rw [if_neg h, ih, List.countP_cons_of_neg _ _ hm]

theorem removeDeletedSidecarsFrom_eq (containers : List Container)
    (configs : List SidecarConfig) (acc : List Container) :
    removeDeletedSidecarsFrom containers configs acc =
      acc ++ containers.flatMap (keptCopies configs) := by
  induction containers generalizing acc with
  | nil => simp [removeDeletedSidecarsFrom]
  | cons c rest ih =>
    unfold removeDeletedSidecarsFrom
    by_cases h : HasPrefix c.Name sidecarContainerPrefix = true
    · have hs : isSidecar c = true := h
      rw [if_neg (by simpa using h), ih, keepPerConfig_eq]
      simp [List.flatMap_cons, keptCopies, hs]
    · have hs : ¬ isSidecar c = true := h
      rw [if_pos h, ih]
      simp [List.flatMap_cons, keptCopies, hs]

theorem removeDeletedSidecars_eq (containers : List Container)
    (configs : List SidecarConfig) :
    removeDeletedSidecars containers configs = containers.flatMap (keptCopies configs) := by
  simp [removeDeletedSidecars, removeDeletedSidecarsFrom_eq]

theorem configStep_eq (image hostPathDir : String) (C : List Container) (st : LoopState)
    (config : SidecarConfig) :
    configStep image hostPathDir C st config =
      { volumes := st.volumes ++
          (created C st.sidecarID [config]).map (fun t => sidecarVolume hostPathDir t.1)
        containers := st.containers ++
          (created C st.sidecarID [config]).map
            (fun t => sidecarContainer image t.1 t.2.1.File t.2.2)
        sidecarID := st.sidecarID + (created C st.sidecarID [config]).length } := by
  unfold configStep
  simp only [created]
  by_cases h : isSidecarAvailable C config = true
  · simp [h]
  · simp only [h, if_false, Bool.false_eq_true]
    rw [getVolume_eq]
    cases firstMountNamed C config.Volume with
    | none => simp
    | some v => simp [sidecarVolume, sidecarContainer]

theorem created_cons (C : List Container) (n : Nat) (config : SidecarConfig)
    (rest : List SidecarConfig) :
    created C n (config :: rest) =
      created C n [config] ++ created C (n + (created C n [config]).length) rest := by
  simp only [created]
  by_cases h : isSidecarAvailable C config = true
  · simp [h]
  · simp only [h, if_false, Bool.false_eq_true]
    cases firstMountNamed C config.Volume with
    | none => simp
    | some v => simp

theorem configLoop_eq (image hostPathDir : String) (C : List Container) (st : LoopState)
    (configs : List SidecarConfig) :
    configLoop image hostPathDir C st configs =
      { volumes := st.volumes ++
          (created C st.sidecarID configs).map (fun t => sidecarVolume hostPathDir t.1)
        containers := st.containers ++
          (created C st.sidecarID configs).map
            (fun t => sidecarContainer image t.1 t.2.1.File t.2.2)
        sidecarID := st.sidecarID + (created C st.sidecarID configs).length } := by
  induction configs generalizing st with
  | nil => simp [configLoop, created]
  | cons config rest ih =>
    unfold configLoop
    rw [ih, configStep_eq, created_cons C st.sidecarID config rest]
    simp [List.append_assoc, Nat.add_assoc]

theorem reconcile_nil (image hostPathDir : String) (pod : Pod) :
    reconcile image hostPathDir pod [] = pod := by
  simp [reconcile]

theorem reconcile_containers (image hostPathDir : String) (pod : Pod)
    (configs : List SidecarConfig) (h : configs ≠ []) :
    (reconcile image hostPathDir pod configs).Spec.Containers =
      pod.Spec.Containers.flatMap (keptCopies configs) ++
        (createdBy pod configs).map (fun t => sidecarContainer image t.1 t.2.1.File t.2.2) := by
  have hl : configs.length ≠ 0 := by simpa using h
  simp [reconcile, hl, runConfigLoop, configLoop_eq, removeDeletedSidecars_eq, createdBy]

theorem reconcile_volumes (image hostPathDir : String) (pod : Pod)
    (configs : List SidecarConfig) (h : configs ≠ []) :
    (reconcile image hostPathDir pod configs).Spec.Volumes =
      pod.Spec.Volumes ++ (createdBy pod configs).map (fun t => sidecarVolume hostPathDir t.1) := by
  have hl : configs.length ≠ 0 := by simpa using h
  simp [reconcile, hl, runConfigLoop, configLoop_eq, createdBy]

theorem created_ids (C : List Container) (n : Nat) (configs : List SidecarConfig) :
    (created C n configs).map (fun t => t.1) = List.range' n (created C n configs).length := by
  induction configs generalizing n with
  | nil => simp [created]
  | cons config rest ih =>
    simp only [created]
    by_cases h : isSidecarAvailable C config = true
    · simp only [h, if_true]; exact ih n
    · simp only [h, if_false, Bool.false_eq_true]
      cases firstMountNamed C config.Volume with
      | none => exact ih n
      | some v => simp [List.range'_succ, ih (n + 1)]

theorem created_configs (C : List Container) (n : Nat) (configs : List SidecarConfig) :
    (created C n configs).map (fun t => t.2.1) = configs.filter (needsSidecar C) := by
  induction configs generalizing n with
  | nil => simp [created]
  | cons config rest ih =>
    simp only [created, List.filter_cons, needsSidecar]
    by_cases h : isSidecarAvailable C config = true
    · simp only [h, if_true]; simpa [needsSidecar] using ih n
    · simp only [h, if_false, Bool.false_eq_true]
      cases firstMountNamed C config.Volume with
      | none => simpa [needsSidecar] using ih n
      | some v => simpa [needsSidecar] using ih (n + 1)

theorem created_mount (C : List Container) (n : Nat) (configs : List SidecarConfig)
    (t : Nat × SidecarConfig × VolumeMount) (ht : t ∈ created C n configs) :
    firstMountNamed C t.2.1.Volume = some t.2.2 := by
  induction configs generalizing n with
  | nil => simp [created] at ht
  | cons config rest ih =>
    simp only [created] at ht
    by_cases h : isSidecarAvailable C config = true
    · simp only [h, if_true] at ht; exact ih n ht
    · simp only [h, if_false, Bool.false_eq_true] at ht
      cases hv : firstMountNamed C config.Volume with
      | none => rw [hv] at ht; exact ih n ht
      | some v =>
        rw [hv] at ht
        rcases List.mem_cons.1 ht with rfl | ht
        · exact hv
        · exact ih (n + 1) ht

theorem firstMountNamed_name (C : List Container) (v : String) (m : VolumeMount)
    (h : firstMountNamed C v = some m) : m.Name = v := by
  have := List.find?_some h
  simpa using this

theorem firstMountNamed_isSome_iff (C : List Container) (v : String) :
    (firstMountNamed C v).isSome = true ↔ ∃ c ∈ C, ∃ m ∈ c.VolumeMounts, m.Name = v := by
  simp [firstMountNamed, allMounts, List.find?_isSome]

theorem isSidecar_sidecarContainer (image : String) (n : Nat) (file : String)
    (volume : VolumeMount) : isSidecar (sidecarContainer image n file volume) = true := by
  simp only [isSidecar, HasPrefix, sidecarContainer, sidecarContainerName,
    sidecarContainerPrefix, String.data_append, List.isPrefixOf_iff_prefix]
  exact List.prefix_append _ _

theorem created_eq_nil_of_unresolvable (C : List Container) (n : Nat)
    (configs : List SidecarConfig)
    (h : ∀ config ∈ configs, firstMountNamed C config.Volume = none) :
    created C n configs = [] := by
  induction configs with
  | nil => rfl
  | cons config rest ih =>
    have h1 := h config (List.mem_cons_self _ _)
    have h2 := ih (fun c hc => h c (List.mem_cons_of_mem _ hc))
    simp only [created, h1, h2]
    split <;> rfl

theorem keptCopies_of_not_isSidecar (configs : List SidecarConfig) (C : List Container)
    (h : ∀ c ∈ C, isSidecar c = false) : C.flatMap (keptCopies configs) = C := by
  induction C with
  | nil => rfl
  | cons c rest ih =>
    have hc := h c (List.mem_cons_self _ _)
    rw [List.flatMap_cons, ih (fun c hc => h c (List.mem_cons_of_mem _ hc))]
    simp [keptCopies, hc]

theorem filter_isSidecar_eq_nil (C : List Container) (h : ∀ c ∈ C, isSidecar c = false) :
    C.filter isSidecar = [] := by
  rw [List.filter_eq_nil_iff]
  intro c hc
  simp [h c hc]

theorem firstMountNamed_eq_none (C : List Container) (v : String)
    (h : ∀ c ∈ C, ∀ m ∈ c.VolumeMounts, m.Name ≠ v) : firstMountNamed C v = none := by
  cases hf : firstMountNamed C v with
  | none => rfl
  | some m =>
    have hs : (firstMountNamed C v).isSome = true := by simp [hf]
    obtain ⟨c, hc, m', hm', hn⟩ := (firstMountNamed_isSome_iff C v).1 hs
    exact absurd hn (h c hc m' hm')

/-! ## Creation -/

/-- C1: for a Pod with non-empty namespace and name, no container with the
sidecar prefix and the single desired config (File `f`, Volume `v`), `v`
being mounted by some container, the pass appends exactly one container
`tailing-sidecar0` (configured image, the one env var `PATH_TO_TAIL = f`,
mounts: the first existing mount named `v`, then `volume-sidecar0` at
`/tailing-sidecar/var`) and exactly one host-path volume `volume-sidecar0`
with path `/var/log/tailing-sidecar-fluentbit/ns/n/tailing-sidecar0` and type
`DirectoryOrCreate`; nothing else of the Pod changes. -/
theorem reconcile_creates_single_sidecar (image token f v : String) (pod : Pod)
    (hns : pod.ObjectMeta.Namespace ≠ "") (hn : pod.ObjectMeta.Name ≠ "")
    (hno : ∀ c ∈ pod.Spec.Containers, HasPrefix c.Name "tailing-sidecar" = false)
    (hm : ∃ c ∈ pod.Spec.Containers, ∃ m ∈ c.VolumeMounts, m.Name = v) :
    ∃ mount, firstMountNamed pod.Spec.Containers v = some mount ∧
      reconcile image (setHostPath pod token) pod [{ File := f, Volume := v }] =
        { pod with
          Spec :=
            { pod.Spec with
              Containers := pod.Spec.Containers ++
                [{ Name := "tailing-sidecar0"
                   Image := image
                   Env := [{ Name := "PATH_TO_TAIL", Value := f }]
                   VolumeMounts :=
                     [mount, { Name := "volume-sidecar0", MountPath := "/tailing-sidecar/var" }] }]
              Volumes := pod.Spec.Volumes ++
                [{ Name := "volume-sidecar0"
                   VolumeSource :=
                     { HostPath := some
                         { Path := "/var/log/tailing-sidecar-fluentbit/" ++
                             pod.ObjectMeta.Namespace ++ "/" ++ pod.ObjectMeta.Name ++
                             "/tailing-sidecar0"
                           Type_ := some "DirectoryOrCreate" } } }] } } := by
  have hs : ∀ c ∈ pod.Spec.Containers, isSidecar c = false := hno
  have hsome : (firstMountNamed pod.Spec.Containers v).isSome = true :=
    (firstMountNamed_isSome_iff _ _).2 hm
  obtain ⟨mount, hmount⟩ := Option.isSome_iff_exists.1 hsome
  refine ⟨mount, hmount, ?_⟩
  have hav : isSidecarAvailable pod.Spec.Containers { File := f, Volume := v } = false := by
    rw [Bool.eq_false_iff]
    intro h
    obtain ⟨c, hc, hcs, _⟩ := (isSidecarAvailable_iff _ _).1 h
    rw [hs c hc] at hcs
    exact Bool.false_ne_true hcs
  have hcount : (getTailingSidecars pod.Spec.Containers).length = 0 := by
    rw [getTailingSidecars_eq_filter, filter_isSidecar_eq_nil _ hs]; rfl
  have hname : sidecarContainerName 0 = "tailing-sidecar0" := by decide
  have hvol : hostPathVolumeName 0 = "volume-sidecar0" := by decide
  have hpath : setHostPath pod token ++ "/" ++ sidecarContainerName 0 =
      "/var/log/tailing-sidecar-fluentbit/" ++ pod.ObjectMeta.Namespace ++ "/" ++
        pod.ObjectMeta.Name ++ "/tailing-sidecar0" := by
    have h1 : setHostPath pod token =
        hostPathDirPath pod.ObjectMeta.Namespace pod.ObjectMeta.Name := by
      simp [setHostPath, hns, hn]
    rw [h1, hname, hostPathDirPath, String.append_assoc _ "/" "tailing-sidecar0"]
    rfl
  rw [hname] at hpath
  simp only [reconcile, runConfigLoop, configLoop_eq, removeDeletedSidecars_eq,
    keptCopies_of_not_isSidecar _ _ hs, hcount, created, hav, hmount]
  simp [sidecarContainer, sidecarVolume, hname, hvol, hpath, sidecarEnv, hostPathMountPath,
    hostPathType]

/-- Scenario A: the theorem at the scenario Pod. -/
theorem reconcile_creates_single_sidecar_witness :
    ∃ mount, firstMountNamed scenarioPod.Spec.Containers "app-data" = some mount ∧
      reconcile "sidecar:1" (setHostPath scenarioPod "t0") scenarioPod
          [{ File := "/var/log/app.log", Volume := "app-data" }] =
        { scenarioPod with
          Spec :=
            { scenarioPod.Spec with
              Containers := scenarioPod.Spec.Containers ++
                [{ Name := "tailing-sidecar0"
                   Image := "sidecar:1"
                   Env := [{ Name := "PATH_TO_TAIL", Value := "/var/log/app.log" }]
                   VolumeMounts :=
                     [mount, { Name := "volume-sidecar0", MountPath := "/tailing-sidecar/var" }] }]
              Volumes := scenarioPod.Spec.Volumes ++
                [{ Name := "volume-sidecar0"
                   VolumeSource :=
                     { HostPath := some
                         { Path := "/var/log/tailing-sidecar-fluentbit/" ++
                             scenarioPod.ObjectMeta.Namespace ++ "/" ++
                             scenarioPod.ObjectMeta.Name ++ "/tailing-sidecar0"
                           Type_ := some "DirectoryOrCreate" } } }] } } :=
  reconcile_creates_single_sidecar "sidecar:1" "t0" "/var/log/app.log" "app-data" scenarioPod
    (by decide) (by decide) (by decide)
    ⟨appContainer, by decide, { Name := "app-data", MountPath := "/var/log" }, by decide, rfl⟩

/-! ## Non-interference -/

theorem filter_not_isSidecar_keptCopies (configs : List SidecarConfig) (C : List Container) :
    (C.flatMap (keptCopies configs)).filter (fun c => !isSidecar c) =
      C.filter (fun c => !isSidecar c) := by
  induction C with
  | nil => rfl
  | cons c rest ih =>
    rw [List.flatMap_cons, List.filter_append, ih, List.filter_cons]
    by_cases h : isSidecar c = true
    · simp [keptCopies, h, List.filter_replicate]
    · simp [keptCopies, h]

theorem filter_not_isSidecar_created (image : String)
    (ts : List (Nat × SidecarConfig × VolumeMount)) :
    (ts.map (fun t => sidecarContainer image t.1 t.2.1.File t.2.2)).filter
      (fun c => !isSidecar c) = [] := by
  rw [List.filter_eq_nil_iff]
  intro c hc
  obtain ⟨t, _, rfl⟩ := List.mem_map.1 hc
  simp [isSidecar_sidecarContainer]

/-- C5: the output containers whose name lacks the prefix `tailing-sidecar`
are, element for element and in the same order, the input containers whose
name lacks it. -/
theorem reconcile_keeps_other_containers (image hostPathDir : String) (pod : Pod)
    (configs : List SidecarConfig) :
    (reconcile image hostPathDir pod configs).Spec.Containers.filter
        (fun c => !HasPrefix c.Name "tailing-sidecar") =
      pod.Spec.Containers.filter (fun c => !HasPrefix c.Name "tailing-sidecar") := by
  by_cases h : configs = []
  · rw [h, reconcile_nil]
  · rw [reconcile_containers image hostPathDir pod configs h, List.filter_append]
    have h1 := filter_not_isSidecar_keptCopies configs pod.Spec.Containers
    have h2 := filter_not_isSidecar_created image (createdBy pod configs)
    simp only [isSidecar, sidecarContainerPrefix] at h1 h2
    rw [h1, h2, List.append_nil]

/-! ## Unresolvable volumes -/

/-- C8: for a Pod without sidecar-prefixed container and a non-empty desired
list none of whose volumes is mounted by any container, the config loop
builds no sidecar and no volume and consumes no identifier, the pass returns
the Pod unchanged, and `Handle` answers with the patch of the unchanged Pod
whenever the Pod decodes and marshals: the unresolvable configs cause no
error response. -/
theorem reconcile_unresolvable_unchanged (image hostPathDir : String) (pod : Pod)
    (configs : List SidecarConfig)
    (hno : ∀ c ∈ pod.Spec.Containers, HasPrefix c.Name "tailing-sidecar" = false)
    (hne : configs ≠ [])
    (hun : ∀ config ∈ configs, ∀ c ∈ pod.Spec.Containers, ∀ m ∈ c.VolumeMounts,
      m.Name ≠ config.Volume) :
    runConfigLoop image hostPathDir pod configs =
        { volumes := pod.Spec.Volumes, containers := [], sidecarID := 0 } ∧
      reconcile image hostPathDir pod configs = pod ∧
      ∀ (e : PodExtender) (req : Request) (marshaledPod : String),
        e.decode req = .ok pod →
        e.getConfigs pod.ObjectMeta.Annotations
          (joinTailinSidecarConfigs (e.list pod.ObjectMeta.Namespace).1) = configs →
        e.marshal pod = .ok marshaledPod →
        Handle e req = .PatchResponseFromRaw req.Raw marshaledPod := by
  have hs : ∀ c ∈ pod.Spec.Containers, isSidecar c = false := hno
  have hcount : (getTailingSidecars pod.Spec.Containers).length = 0 := by
    rw [getTailingSidecars_eq_filter, filter_isSidecar_eq_nil _ hs]; rfl
  have hcr : ∀ n, created pod.Spec.Containers n configs = [] := fun n =>
    created_eq_nil_of_unresolvable _ n _
      (fun config hc => firstMountNamed_eq_none _ _ (hun config hc))
  have hloop : runConfigLoop image hostPathDir pod configs =
      { volumes := pod.Spec.Volumes, containers := [], sidecarID := 0 } := by
    simp [runConfigLoop, configLoop_eq, hcr, hcount]
  have hl : configs.length ≠ 0 := by simpa using hne
  have hrec : ∀ img hp, reconcile img hp pod configs = pod := by
    intro img hp
    simp [reconcile, hl, runConfigLoop, configLoop_eq, hcr, removeDeletedSidecars_eq,
      keptCopies_of_not_isSidecar _ _ hs]
  refine ⟨hloop, hrec image hostPathDir, ?_⟩
  intro e req marshaledPod hd hc hmar
  have hext : extendPod e pod = pod := by
    unfold extendPod
    split
    · simp only [hc]
      exact hrec _ _
    · rfl
  simp [Handle, hd, hext, hmar]

/-- Scenario D: the theorem at the scenario Pod and the config naming
`missing-vol`. -/
theorem reconcile_unresolvable_unchanged_witness :
    runConfigLoop "sidecar:1" "/var/log/x" scenarioPod [missingConfig] =
        { volumes := scenarioPod.Spec.Volumes, containers := [], sidecarID := 0 } ∧
      reconcile "sidecar:1" "/var/log/x" scenarioPod [missingConfig] = scenarioPod ∧
      ∀ (e : PodExtender) (req : Request) (marshaledPod : String),
        e.decode req = .ok scenarioPod →
        e.getConfigs scenarioPod.ObjectMeta.Annotations
          (joinTailinSidecarConfigs (e.list scenarioPod.ObjectMeta.Namespace).1) =
            [missingConfig] →
        e.marshal scenarioPod = .ok marshaledPod →
        Handle e req = .PatchResponseFromRaw req.Raw marshaledPod :=
  reconcile_unresolvable_unchanged "sidecar:1" "/var/log/x" scenarioPod [missingConfig]
    (by decide) (by decide) (by decide)

/-! ## Host path -/

/-- C9: for a Pod whose namespace `ns` and name `n` are both non-empty,
`setHostPath` returns `/var/log/tailing-sidecar-fluentbit/ns/n`, whatever
the generate-name and the generated token: any other call with the same
namespace and name returns the same path. -/
theorem setHostPath_named (pod pod' : Pod) (token token' : String)
    (hns : pod.ObjectMeta.Namespace ≠ "") (hn : pod.ObjectMeta.Name ≠ "")
    (hns' : pod'.ObjectMeta.Namespace = pod.ObjectMeta.Namespace)
    (hn' : pod'.ObjectMeta.Name = pod.ObjectMeta.Name) :
    setHostPath pod token =
        "/var/log/tailing-sidecar-fluentbit/" ++ pod.ObjectMeta.Namespace ++ "/" ++
          pod.ObjectMeta.Name ∧
      setHostPath pod' token' = setHostPath pod token := by
  have h1 : setHostPath pod token =
      hostPathDirPath pod.ObjectMeta.Namespace pod.ObjectMeta.Name := by
    simp [setHostPath, hns, hn]
  have h2 : setHostPath pod' token' =
      hostPathDirPath pod.ObjectMeta.Namespace pod.ObjectMeta.Name := by
    simp [setHostPath, hns', hn', hns, hn]
  exact ⟨by rw [h1]; rfl, by rw [h1, h2]⟩

/-- The theorem at the scenario Pod and at a second Pod object with the same
namespace and name but another generate-name and token. -/
theorem setHostPath_named_witness :
    setHostPath scenarioPod "t0" =
        "/var/log/tailing-sidecar-fluentbit/" ++ scenarioPod.ObjectMeta.Namespace ++ "/" ++
          scenarioPod.ObjectMeta.Name ∧
      setHostPath scenarioPodAgain "t1" = setHostPath scenarioPod "t0" :=
  setHostPath_named scenarioPod scenarioPodAgain "t0" "t1" (by decide) (by decide) rfl rfl

/-! ## Merging the resources -/

theorem joinConfigs_lookup (m : ConfigMap) (l : List (Sigma fun _ : String => SidecarConfig))
    (hl : l.NodupKeys) (name : String) :
    (joinConfigs m l).lookup name = (l.dlookup name).or (m.lookup name) := by
  induction l generalizing m with
  | nil => simp [joinConfigs]
  | cons e rest ih =>
    obtain ⟨hk, hrest⟩ := List.nodupKeys_cons.1 hl
    unfold joinConfigs
    rw [ih _ hrest]
    by_cases h : name = e.1
    · subst h
      have : rest.dlookup e.1 = none := List.dlookup_eq_none.2 hk
      rw [this, AList.lookup_insert, List.dlookup_cons_eq]
      rfl
    · rw [AList.lookup_insert_ne h, List.dlookup_cons_ne _ _ h]

theorem lastDeclared_cons (r : TailingSidecarResource) (rest : List TailingSidecarResource)
    (name : String) :
    lastDeclared (r :: rest) name = (lastDeclared rest name).or (r.Spec.Configs.lookup name) := by
  simp only [lastDeclared, List.reverse_cons, List.find?_append]
  cases h : rest.reverse.find? (fun r => (r.Spec.Configs.lookup name).isSome) with
  | some r' =>
    have := List.find?_some h
    obtain ⟨c, hc⟩ := Option.isSome_iff_exists.1 this
    simp [Option.or, hc]
  | none =>
    cases h2 : r.Spec.Configs.lookup name with
    | none => simp [Option.or, h2]
    | some c => simp [Option.or, h2]

theorem joinTailinSidecarConfigsFrom_lookup (rs : List TailingSidecarResource) (m : ConfigMap) (name : String) :
    (joinTailinSidecarConfigsFrom rs m).lookup name =
      (lastDeclared rs name).or (m.lookup name) := by
  induction rs generalizing m with
  | nil => simp [joinTailinSidecarConfigsFrom, lastDeclared]
  | cons r rest ih =>
    unfold joinTailinSidecarConfigsFrom
    rw [ih, joinConfigs_lookup _ _ r.Spec.Configs.nodupKeys, lastDeclared_cons]
    change (lastDeclared rest name).or ((r.Spec.Configs.lookup name).or (m.lookup name)) = _
    cases lastDeclared rest name <;> simp

theorem lastDeclared_isSome (rs : List TailingSidecarResource) (name : String) :
    (lastDeclared rs name).isSome = true ↔ ∃ r ∈ rs, name ∈ r.Spec.Configs := by
  induction rs with
  | nil => simp [lastDeclared]
  | cons r rest ih =>
    rw [lastDeclared_cons]
    have hor : ∀ a b : Option SidecarConfig,
        (a.or b).isSome = true ↔ (b.isSome = true ∨ a.isSome = true) := by
      intro a b; cases a <;> cases b <;> simp [Option.or]
    rw [hor, ih, AList.lookup_isSome]
    simp only [List.mem_cons, exists_eq_or_imp]

/-- C10: the map `joinTailinSidecarConfigs` returns has as keys exactly the
names some resource of the list declares, and maps each name to the config
of the last resource in the list that declares it. -/
theorem joinTailinSidecarConfigs_last_wins (tailinSidecars : List TailingSidecarResource)
    (name : String) :
    (name ∈ joinTailinSidecarConfigs tailinSidecars ↔
        ∃ r ∈ tailinSidecars, name ∈ r.Spec.Configs) ∧
      (joinTailinSidecarConfigs tailinSidecars).lookup name =
        lastDeclared tailinSidecars name := by
  have h : (joinTailinSidecarConfigs tailinSidecars).lookup name =
      lastDeclared tailinSidecars name := by
    rw [joinTailinSidecarConfigs, joinTailinSidecarConfigsFrom_lookup]
    simp
  refine ⟨?_, h⟩
  rw [← AList.lookup_isSome, h, lastDeclared_isSome]

/-! ## The filter of step 5 -/

/-- C7 at two inputs: on the Pod Scenario A returns, with a desired list
that holds the config of `tailing-sidecar0` twice (two names declaring the
same file and volume), or with two distinct configs that both match it,
`removeDeletedSidecars` returns the sidecar twice, whereas the filter by
"no prefix, or some config matches" returns it once. -/
theorem removeDeletedSidecars_repeats_container :
    removeDeletedSidecars [appContainer, scenarioSidecar] [appConfig, appConfig] =
        [appContainer, scenarioSidecar, scenarioSidecar] ∧
      keptOnce [appContainer, scenarioSidecar] [appConfig, appConfig] =
        [appContainer, scenarioSidecar] ∧
      removeDeletedSidecars [appContainer, scenarioSidecar] [appConfig, stagingConfig] =
        [appContainer, scenarioSidecar, scenarioSidecar] ∧
      keptOnce [appContainer, scenarioSidecar] [appConfig, stagingConfig] =
        [appContainer, scenarioSidecar] := by
  decide

/-! ## Identifiers -/

theorem runConfigLoop_eq (image hostPathDir : String) (pod : Pod)
    (configs : List SidecarConfig) :
    runConfigLoop image hostPathDir pod configs =
      { volumes := pod.Spec.Volumes ++
          (createdBy pod configs).map (fun t => sidecarVolume hostPathDir t.1)
        containers :=
          (createdBy pod configs).map (fun t => sidecarContainer image t.1 t.2.1.File t.2.2)
        sidecarID := (getTailingSidecars pod.Spec.Containers).length +
          (createdBy pod configs).length } := by
  simp [runConfigLoop, configLoop_eq, createdBy]

/-- C6 as stated fails in Scenario A: the Pod has no sidecar, the one new
container is `tailing-sidecar0`, and its identifier 0 does not exceed the
number 0 of sidecars present before the pass. -/
theorem first_identifier_equals_sidecar_count :
    (runConfigLoop "sidecar:1" "/var/log/x" scenarioPod [appConfig]).containers.map
        (fun c => c.Name) = [sidecarContainerName 0] ∧
      (getTailingSidecars scenarioPod.Spec.Containers).length = 0 ∧
      ¬ ∀ n : Nat,
          sidecarContainerName n ∈
            (runConfigLoop "sidecar:1" "/var/log/x" scenarioPod [appConfig]).containers.map
              (fun c => c.Name) →
          (getTailingSidecars scenarioPod.Spec.Containers).length < n := by
  refine ⟨by decide, by decide, ?_⟩
  intro h
  exact absurd (h 0 (by decide)) (by decide)

/-- C6 amended: the containers one pass creates are named
`tailing-sidecar<N>` for N = count, count + 1, ..., in creation order, count
being the number of sidecar-prefixed containers before the pass; so the
identifiers are strictly increasing, pairwise different and at least (not
above) count, and the loop ends with the next free identifier. -/
theorem new_identifiers_increasing (image hostPathDir : String) (pod : Pod)
    (configs : List SidecarConfig) :
    (runConfigLoop image hostPathDir pod configs).containers.map (fun c => c.Name) =
        (List.range' (getTailingSidecars pod.Spec.Containers).length
          (runConfigLoop image hostPathDir pod configs).containers.length).map
            sidecarContainerName ∧
      (runConfigLoop image hostPathDir pod configs).sidecarID =
        (getTailingSidecars pod.Spec.Containers).length +
          (runConfigLoop image hostPathDir pod configs).containers.length ∧
      (List.range' (getTailingSidecars pod.Spec.Containers).length
        (runConfigLoop image hostPathDir pod configs).containers.length).Pairwise (· < ·) ∧
      (List.range' (getTailingSidecars pod.Spec.Containers).length
        (runConfigLoop image hostPathDir pod configs).containers.length).Nodup ∧
      ∀ n ∈ List.range' (getTailingSidecars pod.Spec.Containers).length
          (runConfigLoop image hostPathDir pod configs).containers.length,
        (getTailingSidecars pod.Spec.Containers).length ≤ n := by
  rw [runConfigLoop_eq]
  simp only [List.length_map]
  refine ⟨?_, trivial, List.pairwise_lt_range' _ _, List.nodup_range' _ _, ?_⟩
  · have h := created_ids pod.Spec.Containers
      (getTailingSidecars pod.Spec.Containers).length configs
    rw [← createdBy] at h
    rw [← h, List.map_map, List.map_map]
    rfl
  · intro n hn
    exact (List.mem_range'_1.1 hn).1

/-! ## Removal -/

theorem created_mem_configs (C : List Container) (n : Nat) (configs : List SidecarConfig)
    (t : Nat × SidecarConfig × VolumeMount) (ht : t ∈ created C n configs) :
    t.2.1 ∈ configs ∧ needsSidecar C t.2.1 = true := by
  have h : t.2.1 ∈ (created C n configs).map (fun t => t.2.1) := List.mem_map_of_mem _ ht
  rw [created_configs] at h
  exact List.mem_filter.1 h

theorem matchesConfig_sidecarContainer (image : String) (n : Nat) (config : SidecarConfig)
    (volume : VolumeMount) (hv : volume.Name = config.Volume) :
    matchesConfig (sidecarContainer image n config.File volume) config = true := by
  rw [matchesConfig_iff]
  exact ⟨⟨_, List.mem_cons_self _ _, rfl, rfl⟩, ⟨volume, List.mem_cons_self _ _, hv⟩⟩

theorem created_matches (image : String) (C : List Container) (n : Nat)
    (configs : List SidecarConfig) (t : Nat × SidecarConfig × VolumeMount)
    (ht : t ∈ created C n configs) :
    matchesConfig (sidecarContainer image t.1 t.2.1.File t.2.2) t.2.1 = true :=
  matchesConfig_sidecarContainer image t.1 t.2.1 t.2.2
    (firstMountNamed_name C _ _ (created_mount C n configs t ht))

theorem mem_keptCopies (configs : List SidecarConfig) (c c' : Container) :
    c ∈ keptCopies configs c' ↔
      c = c' ∧ (isSidecar c' = false ∨ ∃ config ∈ configs, matchesConfig c' config = true) := by
  unfold keptCopies
  by_cases h : isSidecar c' = true
  · simp only [h, if_true, List.mem_replicate, Bool.true_eq_false, false_or]
    rw [Ne, List.countP_eq_zero]
    constructor
    · rintro ⟨hne, rfl⟩
      refine ⟨rfl, ?_⟩
      by_contra hcon
      exact hne (fun config hc hm => hcon ⟨config, hc, hm⟩)
    · rintro ⟨rfl, config, hc, hm⟩
      exact ⟨fun hall => hall config hc hm, rfl⟩
  · simp [h]

theorem reconcile_others (image hostPathDir : String) (pod : Pod)
    (configs : List SidecarConfig) :
    (reconcile image hostPathDir pod configs).Spec.Containers.filter (fun c => !isSidecar c) =
      pod.Spec.Containers.filter (fun c => !isSidecar c) := by
  by_cases h : configs = []
  · rw [h, reconcile_nil]
  · rw [reconcile_containers image hostPathDir pod configs h, List.filter_append,
      filter_not_isSidecar_keptCopies, filter_not_isSidecar_created, List.append_nil]

/-- C4 as stated fails on the Pod Scenario A returns: with the empty desired
list (Scenario C) the pass returns the Pod as it is, `tailing-sidecar0` and
`volume-sidecar0` included; with a desired list holding only another config
the sidecar goes but the volume `volume-sidecar0` stays in the volume list. -/
theorem sidecar_volume_survives_removal :
    (reconcile "sidecar:1" "/var/log/tailing-sidecar-fluentbit/prod/web"
        scenarioPodReconciled []).Spec = scenarioPodReconciled.Spec ∧
      scenarioSidecar ∈ (reconcile "sidecar:1" "/var/log/tailing-sidecar-fluentbit/prod/web"
        scenarioPodReconciled []).Spec.Containers ∧
      scenarioVolume ∈ (reconcile "sidecar:1" "/var/log/tailing-sidecar-fluentbit/prod/web"
        scenarioPodReconciled []).Spec.Volumes ∧
      scenarioSidecar ∉ (reconcile "sidecar:1" "/var/log/tailing-sidecar-fluentbit/prod/web"
        scenarioPodReconciled [otherConfig]).Spec.Containers ∧
      scenarioVolume ∈ (reconcile "sidecar:1" "/var/log/tailing-sidecar-fluentbit/prod/web"
        scenarioPodReconciled [otherConfig]).Spec.Volumes := by
  decide

/-- C4 amended: let `c` be a sidecar-prefixed container of the Pod that no
config of the desired list matches. With an empty desired list the pass
returns the Pod unchanged. With a non-empty one, `c` is absent from the
output containers, every input container that lacks the prefix or still
matches some config is present, the containers lacking the prefix are the
same in the same order, and the output volumes are the input volumes
followed by the volumes of the new sidecars: no volume is removed. -/
theorem reconcile_removes_unmatched_sidecar (image hostPathDir : String) (pod : Pod)
    (configs : List SidecarConfig) (c : Container)
    (hc : c ∈ pod.Spec.Containers)
    (hs : HasPrefix c.Name "tailing-sidecar" = true)
    (hun : ∀ config ∈ configs,
      ¬ (isSidecarEnvAvailable c.Env config.File = true ∧
          isVolumeMountAvailable c.VolumeMounts config.Volume = true)) :
    (configs = [] → reconcile image hostPathDir pod configs = pod) ∧
      (configs ≠ [] →
        c ∉ (reconcile image hostPathDir pod configs).Spec.Containers ∧
        (∀ c' ∈ pod.Spec.Containers,
          (HasPrefix c'.Name "tailing-sidecar" = false ∨
            ∃ config ∈ configs, isSidecarEnvAvailable c'.Env config.File = true ∧
              isVolumeMountAvailable c'.VolumeMounts config.Volume = true) →
          c' ∈ (reconcile image hostPathDir pod configs).Spec.Containers) ∧
        (reconcile image hostPathDir pod configs).Spec.Containers.filter
            (fun c' => !HasPrefix c'.Name "tailing-sidecar") =
          pod.Spec.Containers.filter (fun c' => !HasPrefix c'.Name "tailing-sidecar") ∧
        ∃ newVolumes,
          (reconcile image hostPathDir pod configs).Spec.Volumes =
            pod.Spec.Volumes ++ newVolumes ∧
          newVolumes.length =
            (runConfigLoop image hostPathDir pod configs).containers.length) := by
  have hm : ∀ (c' : Container) (config : SidecarConfig),
      matchesConfig c' config = true ↔
        (isSidecarEnvAvailable c'.Env config.File = true ∧
          isVolumeMountAvailable c'.VolumeMounts config.Volume = true) := by
    intro c' config; simp [matchesConfig]
  refine ⟨fun h => by rw [h, reconcile_nil], fun hne => ⟨?_, ?_, ?_, ?_⟩⟩
  · rw [reconcile_containers image hostPathDir pod configs hne, List.mem_append]
    rintro (hmem | hmem)
    · obtain ⟨c', _, hc'⟩ := List.mem_flatMap.1 hmem
      obtain ⟨rfl, hor⟩ := (mem_keptCopies configs c c').1 hc'
      rcases hor with hns | ⟨config, hcfg, hmatch⟩
      · have : isSidecar c = true := hs
        rw [hns] at this
        exact Bool.false_ne_true this
      · exact hun config hcfg ((hm c config).1 hmatch)
    · obtain ⟨t, ht, rfl⟩ := List.mem_map.1 hmem
      have h1 := created_mem_configs _ _ _ t ht
      have h2 := created_matches image _ _ _ t ht
      exact hun t.2.1 h1.1 ((hm _ _).1 h2)
  · intro c' hc' hor
    rw [reconcile_containers image hostPathDir pod configs hne, List.mem_append]
    refine Or.inl (List.mem_flatMap.2 ⟨c', hc', (mem_keptCopies configs c' c').2 ⟨rfl, ?_⟩⟩)
    rcases hor with hns | ⟨config, hcfg, hmatch⟩
    · exact Or.inl hns
    · exact Or.inr ⟨config, hcfg, (hm _ _).2 hmatch⟩
  · exact reconcile_others image hostPathDir pod configs
  · refine ⟨_, reconcile_volumes image hostPathDir pod configs hne, ?_⟩
    rw [runConfigLoop_eq]
    simp

/-- The theorem at the Pod Scenario A returns, its sidecar `tailing-sidecar0`
and a desired list that holds only another config. -/
theorem reconcile_removes_unmatched_sidecar_witness :
    scenarioSidecar ∉ (reconcile "sidecar:1" "/var/log/x" scenarioPodReconciled
        [otherConfig]).Spec.Containers :=
  ((reconcile_removes_unmatched_sidecar "sidecar:1" "/var/log/x" scenarioPodReconciled
    [otherConfig] scenarioSidecar (by decide) (by decide) (by decide)).2 (by decide)).1

/-! ## Exact coverage -/

theorem ne_hostPathVolumeName (v : String) (n : Nat)
    (h : HasPrefix v "volume-sidecar" = false) : v ≠ hostPathVolumeName n := by
  intro hv
  have h2 : HasPrefix v "volume-sidecar" = true := by
    rw [hv]
    simp only [HasPrefix, hostPathVolumeName, String.data_append, List.isPrefixOf_iff_prefix]
    exact List.prefix_append _ _
  rw [h] at h2
  exact Bool.false_ne_true h2

theorem keptCopies_of_atMostOne (configs : List SidecarConfig) (c : Container)
    (h : isSidecar c = true → configs.countP (fun config => matchesConfig c config) ≤ 1) :
    keptCopies configs c =
      if (!isSidecar c || configs.any (fun config => matchesConfig c config)) = true
      then [c] else [] := by
  unfold keptCopies
  by_cases hs : isSidecar c = true
  · have hle := h hs
    simp only [hs, if_true, Bool.not_true, Bool.false_or]
    by_cases hany : configs.any (fun config => matchesConfig c config) = true
    · have hpos : 0 < configs.countP (fun config => matchesConfig c config) := by
        rw [List.countP_pos_iff]
        simpa using hany
      have h1 : configs.countP (fun config => matchesConfig c config) = 1 := by omega
      simp [h1, hany]
    · have h0 : configs.countP (fun config => matchesConfig c config) = 0 := by
        rw [List.countP_eq_zero]
        intro config hc hm
        exact hany (List.any_eq_true.2 ⟨config, hc, hm⟩)
      simp [h0, hany]
  · simp [hs]

theorem flatMap_keptCopies_eq_keptOnce (configs : List SidecarConfig) (C : List Container)
    (h : ∀ c ∈ C, isSidecar c = true →
      configs.countP (fun config => matchesConfig c config) ≤ 1) :
    C.flatMap (keptCopies configs) = keptOnce C configs := by
  induction C with
  | nil => rfl
  | cons c rest ih =>
    rw [List.flatMap_cons, ih (fun c hc => h c (List.mem_cons_of_mem _ hc)),
      keptCopies_of_atMostOne configs c (h c (List.mem_cons_self _ _))]
    simp only [keptOnce, List.filter_cons]
    split <;> rfl

theorem matchesConfig_sidecarContainer_iff (image : String) (n : Nat) (file : String)
    (volume : VolumeMount) (config : SidecarConfig)
    (hstaging : config.Volume ≠ hostPathVolumeName n) :
    matchesConfig (sidecarContainer image n file volume) config = true ↔
      config.File = file ∧ config.Volume = volume.Name := by
  rw [matchesConfig_iff]
  simp only [sidecarContainer, List.mem_cons, List.mem_singleton, List.not_mem_nil, or_false,
    exists_eq_left, true_and, exists_eq_or_imp]
  constructor
  · rintro ⟨hf, hv | hv⟩
    · exact ⟨hf.symm, hv.symm⟩
    · exact absurd hv.symm hstaging
  · rintro ⟨hf, hv⟩
    exact ⟨hf.symm, Or.inl hv.symm⟩

theorem created_matches_iff (image : String) (C : List Container) (n : Nat)
    (configs : List SidecarConfig) (config : SidecarConfig)
    (hstaging : ∀ k, config.Volume ≠ hostPathVolumeName k)
    (t : Nat × SidecarConfig × VolumeMount) (ht : t ∈ created C n configs) :
    matchesConfig (sidecarContainer image t.1 t.2.1.File t.2.2) config = true ↔
      t.2.1 = config := by
  rw [matchesConfig_sidecarContainer_iff image t.1 _ _ config (hstaging t.1),
    firstMountNamed_name C _ _ (created_mount C n configs t ht)]
  constructor
  · rintro ⟨hf, hv⟩
    cases config; cases h : t.2.1
    simp_all
  · rintro rfl
    exact ⟨rfl, rfl⟩

theorem countP_created_matches (image : String) (C : List Container) (n : Nat)
    (configs : List SidecarConfig) (config : SidecarConfig)
    (hstaging : ∀ k, config.Volume ≠ hostPathVolumeName k) :
    ((created C n configs).map (fun t => sidecarContainer image t.1 t.2.1.File t.2.2)).countP
        (fun c => isSidecar c && matchesConfig c config) =
      (configs.filter (needsSidecar C)).count config := by
  rw [← created_configs C n configs, List.count, List.countP_map, List.countP_map]
  apply List.countP_congr
  intro t ht
  simp only [Function.comp, isSidecar_sidecarContainer, Bool.true_and, beq_iff_eq]
  exact created_matches_iff image C n configs config hstaging t ht

theorem countP_keptOnce (C : List Container) (configs : List SidecarConfig)
    (config : SidecarConfig) (hc : config ∈ configs) :
    (keptOnce C configs).countP (fun c => isSidecar c && matchesConfig c config) =
      C.countP (fun c => isSidecar c && matchesConfig c config) := by
  rw [keptOnce, List.countP_filter]
  apply List.countP_congr
  intro c _
  simp only [Bool.and_eq_true, Bool.or_eq_true, Bool.not_eq_true', List.any_eq_true]
  constructor
  · rintro ⟨h, _⟩; exact h
  · rintro ⟨hs, hm⟩; exact ⟨⟨hs, hm⟩, Or.inr ⟨config, hc, hm⟩⟩

theorem countP_pos_of_isSidecarAvailable (C : List Container) (config : SidecarConfig)
    (h : isSidecarAvailable C config = true) :
    0 < C.countP (fun c => isSidecar c && matchesConfig c config) := by
  obtain ⟨c, hc, hs, hm⟩ := (isSidecarAvailable_iff C config).1 h
  rw [List.countP_pos_iff]
  exact ⟨c, hc, by simp [hs, hm]⟩

theorem countP_eq_zero_of_not_isSidecarAvailable (C : List Container) (config : SidecarConfig)
    (h : isSidecarAvailable C config = false) :
    C.countP (fun c => isSidecar c && matchesConfig c config) = 0 := by
  rw [List.countP_eq_zero]
  intro c hc hp
  simp only [Bool.and_eq_true] at hp
  have : isSidecarAvailable C config = true :=
    (isSidecarAvailable_iff C config).2 ⟨c, hc, hp.1, hp.2⟩
  rw [h] at this
  exact Bool.false_ne_true this

/-- C3 as stated fails in Scenario A with a desired list that holds the
config of the application log twice (two names declaring the same file and
volume): the pass builds `tailing-sidecar0` and `tailing-sidecar1` for the
same pair, so two sidecars of the output, not one, carry that file and mount
that volume. -/
theorem duplicate_config_gets_two_sidecars :
    appConfig ∈ [appConfig, appConfig] ∧
      (∃ c ∈ scenarioPod.Spec.Containers, ∃ m ∈ c.VolumeMounts, m.Name = appConfig.Volume) ∧
      ((reconcile "sidecar:1" "/var/log/x" scenarioPod
          [appConfig, appConfig]).Spec.Containers.map (fun c => c.Name) =
        ["app", "tailing-sidecar0", "tailing-sidecar1"]) ∧
      ((reconcile "sidecar:1" "/var/log/x" scenarioPod
          [appConfig, appConfig]).Spec.Containers.filter
        (fun c => HasPrefix c.Name "tailing-sidecar" &&
          (isSidecarEnvAvailable c.Env appConfig.File &&
            isVolumeMountAvailable c.VolumeMounts appConfig.Volume))).length = 2 := by
  decide

/-- C3 amended: if the desired configs are pairwise distinct, none of them
names a staging volume `volume-sidecar<N>`, every sidecar-prefixed container
of the input matches at most one desired config and every desired config is
matched by at most one sidecar-prefixed container of the input, then after
one pass every desired config whose volume some input container mounts is
matched by exactly one sidecar-prefixed container of the output (its
`PATH_TO_TAIL` value is the file and one of its mounts has the volume name). -/
theorem reconcile_covers_exactly_once (image hostPathDir : String) (pod : Pod)
    (configs : List SidecarConfig)
    (hnodup : configs.Nodup)
    (hstaging : ∀ config ∈ configs, ∀ n : Nat, config.Volume ≠ hostPathVolumeName n)
    (hone : ∀ c ∈ pod.Spec.Containers, HasPrefix c.Name "tailing-sidecar" = true →
      (configs.filter (fun config => isSidecarEnvAvailable c.Env config.File &&
        isVolumeMountAvailable c.VolumeMounts config.Volume)).length ≤ 1)
    (huniq : ∀ config ∈ configs,
      (pod.Spec.Containers.filter (fun c => HasPrefix c.Name "tailing-sidecar" &&
        (isSidecarEnvAvailable c.Env config.File &&
          isVolumeMountAvailable c.VolumeMounts config.Volume))).length ≤ 1)
    (config : SidecarConfig) (hc : config ∈ configs)
    (hm : ∃ c ∈ pod.Spec.Containers, ∃ m ∈ c.VolumeMounts, m.Name = config.Volume) :
    ((reconcile image hostPathDir pod configs).Spec.Containers.filter
      (fun c => HasPrefix c.Name "tailing-sidecar" &&
        (isSidecarEnvAvailable c.Env config.File &&
          isVolumeMountAvailable c.VolumeMounts config.Volume))).length = 1 := by
  have hne : configs ≠ [] := List.ne_nil_of_mem hc
  have hone' : ∀ c ∈ pod.Spec.Containers, isSidecar c = true →
      configs.countP (fun config => matchesConfig c config) ≤ 1 := by
    intro c hcC hs
    have := hone c hcC hs
    rwa [← List.countP_eq_length_filter] at this
  have huniq' : pod.Spec.Containers.countP
      (fun c => isSidecar c && matchesConfig c config) ≤ 1 := by
    have := huniq config hc
    rwa [← List.countP_eq_length_filter] at this
  have hgoal : (reconcile image hostPathDir pod configs).Spec.Containers.countP
      (fun c => isSidecar c && matchesConfig c config) = 1 := by
    rw [reconcile_containers image hostPathDir pod configs hne,
      flatMap_keptCopies_eq_keptOnce configs _ hone', List.countP_append,
      countP_keptOnce _ _ _ hc, createdBy,
      countP_created_matches image _ _ _ _ (hstaging config hc)]
    have hres : (firstMountNamed pod.Spec.Containers config.Volume).isSome = true :=
      (firstMountNamed_isSome_iff _ _).2 hm
    cases hav : isSidecarAvailable pod.Spec.Containers config with
    | true =>
      have hpos := countP_pos_of_isSidecarAvailable _ _ hav
      have hnot : config ∉ configs.filter (needsSidecar pod.Spec.Containers) := by
        intro hmem
        have := (List.mem_filter.1 hmem).2
        simp [needsSidecar, hav] at this
      rw [List.count_eq_zero_of_not_mem hnot]
      omega
    | false =>
      have hzero := countP_eq_zero_of_not_isSidecarAvailable _ _ hav
      have hmem : config ∈ configs.filter (needsSidecar pod.Spec.Containers) := by
        rw [List.mem_filter]
        exact ⟨hc, by simp [needsSidecar, hav, hres]⟩
      rw [List.count_eq_one_of_mem (hnodup.filter _) hmem, hzero]
  rw [← List.countP_eq_length_filter]
  exact hgoal

/-- Scenario A: the theorem at the scenario Pod and its one config. -/
theorem reconcile_covers_exactly_once_witness :
    ((reconcile "sidecar:1" "/var/log/x" scenarioPod [appConfig]).Spec.Containers.filter
      (fun c => HasPrefix c.Name "tailing-sidecar" &&
        (isSidecarEnvAvailable c.Env appConfig.File &&
          isVolumeMountAvailable c.VolumeMounts appConfig.Volume))).length = 1 :=
  reconcile_covers_exactly_once "sidecar:1" "/var/log/x" scenarioPod [appConfig]
    (by decide)
    (fun config hc n => ne_hostPathVolumeName config.Volume n
      (by rw [List.mem_singleton.1 hc]; decide))
    (by decide) (by decide) appConfig (by decide)
    ⟨appContainer, by decide, { Name := "app-data", MountPath := "/var/log" }, by decide, rfl⟩

/-! ## Idempotence -/

theorem keptCopies_eq_singleton (configs : List SidecarConfig) (c : Container)
    (h : isSidecar c = false ∨ configs.countP (fun config => matchesConfig c config) = 1) :
    keptCopies configs c = [c] := by
  unfold keptCopies
  rcases h with h | h
  · simp [h]
  · rw [h]; split <;> rfl

theorem flatMap_eq_self_of_singleton (l : List Container) (f : Container → List Container)
    (h : ∀ x ∈ l, f x = [x]) : l.flatMap f = l := by
  induction l with
  | nil => rfl
  | cons x rest ih =>
    rw [List.flatMap_cons, h x (List.mem_cons_self _ _),
      ih (fun y hy => h y (List.mem_cons_of_mem _ hy))]
    rfl

theorem created_eq_nil_of_not_needed (C : List Container) (n : Nat)
    (configs : List SidecarConfig)
    (h : ∀ config ∈ configs, needsSidecar C config = false) : created C n configs = [] := by
  have h1 := created_configs C n configs
  have h2 : configs.filter (needsSidecar C) = [] := by
    rw [List.filter_eq_nil_iff]
    intro config hc
    simp [h config hc]
  rw [h2] at h1
  exact List.map_eq_nil_iff.1 h1

theorem mem_keptOnce (C : List Container) (configs : List SidecarConfig) (c : Container) :
    c ∈ keptOnce C configs ↔
      c ∈ C ∧ (isSidecar c = false ∨ ∃ config ∈ configs, matchesConfig c config = true) := by
  simp [keptOnce, List.mem_filter]

theorem countP_matches_created (image : String) (C : List Container) (n : Nat)
    (configs : List SidecarConfig) (hnodup : configs.Nodup)
    (hstaging : ∀ config ∈ configs, ∀ k : Nat, config.Volume ≠ hostPathVolumeName k)
    (t : Nat × SidecarConfig × VolumeMount) (ht : t ∈ created C n configs) :
    configs.countP
      (fun config => matchesConfig (sidecarContainer image t.1 t.2.1.File t.2.2) config) = 1 := by
  have hmem := (created_mem_configs C n configs t ht).1
  have hcount : configs.count t.2.1 = 1 := List.count_eq_one_of_mem hnodup hmem
  rw [← hcount, List.count]
  apply List.countP_congr
  intro config hc
  rw [created_matches_iff image C n configs config (hstaging config hc) t ht, beq_iff_eq]
  exact eq_comm

theorem mount_of_created_mem (C : List Container) (n : Nat) (configs : List SidecarConfig)
    (t : Nat × SidecarConfig × VolumeMount) (ht : t ∈ created C n configs) :
    ∃ c ∈ C, t.2.2 ∈ c.VolumeMounts := by
  have h := created_mount C n configs t ht
  have hmem : t.2.2 ∈ allMounts C := List.mem_of_find?_eq_some h
  obtain ⟨c, hc, hm⟩ := List.mem_flatMap.1 hmem
  exact ⟨c, hc, hm⟩

theorem needsSidecar_after_pass (image : String) (C : List Container) (n : Nat)
    (configs : List SidecarConfig)
    (hstaging : ∀ config ∈ configs, ∀ k : Nat, config.Volume ≠ hostPathVolumeName k)
    (config : SidecarConfig) (hc : config ∈ configs) :
    needsSidecar
      (keptOnce C configs ++
        (created C n configs).map (fun t => sidecarContainer image t.1 t.2.1.File t.2.2))
      config = false := by
  cases hav : isSidecarAvailable C config with
  | true =>
    obtain ⟨c, hcC, hs, hm⟩ := (isSidecarAvailable_iff C config).1 hav
    have : isSidecarAvailable
        (keptOnce C configs ++
          (created C n configs).map (fun t => sidecarContainer image t.1 t.2.1.File t.2.2))
        config = true := by
      rw [isSidecarAvailable_iff]
      exact ⟨c, List.mem_append_left _
        ((mem_keptOnce C configs c).2 ⟨hcC, Or.inr ⟨config, hc, hm⟩⟩), hs, hm⟩
    simp [needsSidecar, this]
  | false =>
    cases hres : firstMountNamed C config.Volume with
    | some mount =>
      have hneed : config ∈ configs.filter (needsSidecar C) := by
        rw [List.mem_filter]
        exact ⟨hc, by simp [needsSidecar, hav, hres]⟩
      rw [← created_configs C n configs] at hneed
      obtain ⟨t, ht, hteq⟩ := List.mem_map.1 hneed
      have hmatch : matchesConfig (sidecarContainer image t.1 t.2.1.File t.2.2) config =
          true := by
        have h := created_matches image C n configs t ht
        rw [hteq] at h ⊢
        exact h
      have : isSidecarAvailable
          (keptOnce C configs ++
            (created C n configs).map (fun t => sidecarContainer image t.1 t.2.1.File t.2.2))
          config = true := by
        rw [isSidecarAvailable_iff]
        refine ⟨sidecarContainer image t.1 t.2.1.File t.2.2,
          List.mem_append_right _ (List.mem_map_of_mem _ ht),
          isSidecar_sidecarContainer _ _ _ _, hmatch⟩
      simp [needsSidecar, this]
    | none =>
      have hnone : ∀ c ∈ C, ∀ m ∈ c.VolumeMounts, m.Name ≠ config.Volume := by
        intro c hcC m hm hname
        have : (firstMountNamed C config.Volume).isSome = true :=
          (firstMountNamed_isSome_iff _ _).2 ⟨c, hcC, m, hm, hname⟩
        rw [hres] at this
        exact Bool.false_ne_true this
      have : firstMountNamed
          (keptOnce C configs ++
            (created C n configs).map (fun t => sidecarContainer image t.1 t.2.1.File t.2.2))
          config.Volume = none := by
        apply firstMountNamed_eq_none
        intro c hcmem m hm
        rcases List.mem_append.1 hcmem with hk | hnew
        · exact hnone c ((mem_keptOnce C configs c).1 hk).1 m hm
        · obtain ⟨t, ht, rfl⟩ := List.mem_map.1 hnew
          simp only [sidecarContainer, List.mem_cons, List.mem_singleton, List.not_mem_nil,
            or_false] at hm
          rcases hm with rfl | rfl
          · obtain ⟨c0, hc0, hm0⟩ := mount_of_created_mem C n configs t ht
            exact hnone c0 hc0 _ hm0
          · exact fun h => hstaging config hc t.1 h.symm
      simp [needsSidecar, this]

theorem reconcile_eq_of_fixed (image hostPathDir : String) (pod : Pod)
    (configs : List SidecarConfig)
    (hkeep : pod.Spec.Containers.flatMap (keptCopies configs) = pod.Spec.Containers)
    (hnew : ∀ n, created pod.Spec.Containers n configs = []) :
    reconcile image hostPathDir pod configs = pod := by
  by_cases h : configs = []
  · rw [h, reconcile_nil]
  · have hl : configs.length ≠ 0 := by simpa using h
    simp [reconcile, hl, runConfigLoop, configLoop_eq, removeDeletedSidecars_eq, hkeep, hnew]

/-- C2 as stated fails in Scenario A with a second config that names the
staging volume of the first sidecar: the first pass builds `tailing-sidecar0`
only, since no container mounts `volume-sidecar0` yet, and the second pass
finds that mount in `tailing-sidecar0` and adds `tailing-sidecar1` and
`volume-sidecar1`. With the config of Scenario A listed twice the second pass
repeats both sidecars of the first. -/
theorem second_pass_changes_pod :
    (reconcile "sidecar:1" (setHostPath scenarioPod "t0") scenarioPod
        [appConfig, stagingOtherConfig]).Spec.Containers.map (fun c => c.Name) =
        ["app", "tailing-sidecar0"] ∧
      (reconcile "sidecar:1" (setHostPath scenarioPod "t0")
        (reconcile "sidecar:1" (setHostPath scenarioPod "t0") scenarioPod
          [appConfig, stagingOtherConfig])
        [appConfig, stagingOtherConfig]).Spec.Containers.map (fun c => c.Name) =
        ["app", "tailing-sidecar0", "tailing-sidecar1"] ∧
      (reconcile "sidecar:1" (setHostPath scenarioPod "t0") scenarioPod
        [appConfig, stagingOtherConfig]).Spec.Volumes.map (fun v => v.Name) =
        ["app-data", "volume-sidecar0"] ∧
      (reconcile "sidecar:1" (setHostPath scenarioPod "t0")
        (reconcile "sidecar:1" (setHostPath scenarioPod "t0") scenarioPod
          [appConfig, stagingOtherConfig])
        [appConfig, stagingOtherConfig]).Spec.Volumes.map (fun v => v.Name) =
        ["app-data", "volume-sidecar0", "volume-sidecar1"] ∧
      (reconcile "sidecar:1" (setHostPath scenarioPod "t0") scenarioPod
        [appConfig, appConfig]).Spec.Containers.map (fun c => c.Name) =
        ["app", "tailing-sidecar0", "tailing-sidecar1"] ∧
      (reconcile "sidecar:1" (setHostPath scenarioPod "t0")
        (reconcile "sidecar:1" (setHostPath scenarioPod "t0") scenarioPod
          [appConfig, appConfig])
        [appConfig, appConfig]).Spec.Containers.map (fun c => c.Name) =
        ["app", "tailing-sidecar0", "tailing-sidecar0", "tailing-sidecar1",
          "tailing-sidecar1"] := by
  decide

/-- C2 amended: if the desired configs are pairwise distinct, none of them
names a staging volume `volume-sidecar<N>`, and every sidecar-prefixed
container of the input Pod matches at most one desired config, then a second
pass over the output of a first pass (same configs, host-path root and image)
returns that output unchanged: same containers, same volumes, same Pod. -/
theorem reconcile_idempotent (image hostPathDir : String) (pod : Pod)
    (configs : List SidecarConfig)
    (hnodup : configs.Nodup)
    (hstaging : ∀ config ∈ configs, ∀ n : Nat, config.Volume ≠ hostPathVolumeName n)
    (hone : ∀ c ∈ pod.Spec.Containers, HasPrefix c.Name "tailing-sidecar" = true →
      (configs.filter (fun config => isSidecarEnvAvailable c.Env config.File &&
        isVolumeMountAvailable c.VolumeMounts config.Volume)).length ≤ 1) :
    reconcile image hostPathDir (reconcile image hostPathDir pod configs) configs =
      reconcile image hostPathDir pod configs := by
  by_cases hne : configs = []
  · rw [hne, reconcile_nil, reconcile_nil]
  have hone' : ∀ c ∈ pod.Spec.Containers, isSidecar c = true →
      configs.countP (fun config => matchesConfig c config) ≤ 1 := by
    intro c hcC hs
    have := hone c hcC hs
    rwa [← List.countP_eq_length_filter] at this
  have hC : (reconcile image hostPathDir pod configs).Spec.Containers =
      keptOnce pod.Spec.Containers configs ++
        (created pod.Spec.Containers (getTailingSidecars pod.Spec.Containers).length
          configs).map (fun t => sidecarContainer image t.1 t.2.1.File t.2.2) := by
    rw [reconcile_containers image hostPathDir pod configs hne,
      flatMap_keptCopies_eq_keptOnce configs _ hone', createdBy]
  apply reconcile_eq_of_fixed
  · apply flatMap_eq_self_of_singleton
    intro x hx
    apply keptCopies_eq_singleton
    rw [hC] at hx
    rcases List.mem_append.1 hx with hk | hnew
    · obtain ⟨hxC, hor⟩ := (mem_keptOnce _ _ x).1 hk
      by_cases hs : isSidecar x = true
      · right
        have hle := hone' x hxC hs
        have hpos : 0 < configs.countP (fun config => matchesConfig x config) := by
          rw [List.countP_pos_iff]
          rcases hor with hf | ⟨config, hc, hm⟩
          · rw [hs] at hf; exact absurd hf (by decide)
          · exact ⟨config, hc, hm⟩
        omega
      · left
        simpa using hs
    · obtain ⟨t, ht, rfl⟩ := List.mem_map.1 hnew
      right
      exact countP_matches_created image _ _ configs hnodup hstaging t ht
  · intro n
    apply created_eq_nil_of_not_needed
    intro config hc
    rw [hC]
    exact needsSidecar_after_pass image _ _ configs hstaging config hc

/-- Scenario B: the theorem at the scenario Pod and its one config. -/
theorem reconcile_idempotent_witness :
    reconcile "sidecar:1" (setHostPath scenarioPod "t0")
        (reconcile "sidecar:1" (setHostPath scenarioPod "t0") scenarioPod [appConfig])
        [appConfig] =
      reconcile "sidecar:1" (setHostPath scenarioPod "t0") scenarioPod [appConfig] :=
  reconcile_idempotent "sidecar:1" (setHostPath scenarioPod "t0") scenarioPod [appConfig]
    (by decide)
    (fun config hc n => ne_hostPathVolumeName config.Volume n
      (by rw [List.mem_singleton.1 hc]; decide))
    (by decide)

/-! ## Volume resolution -/

theorem firstMountNamed_of_position (pre post : List Container) (c : Container)
    (mpre mpost : List VolumeMount) (m : VolumeMount) (v : String)
    (hc : c.VolumeMounts = mpre ++ m :: mpost) (hm : m.Name = v)
    (hpre : ∀ c' ∈ pre, ∀ m' ∈ c'.VolumeMounts, m'.Name ≠ v)
    (hmpre : ∀ m' ∈ mpre, m'.Name ≠ v) :
    firstMountNamed (pre ++ c :: post) v = some m := by
  have h1 : (allMounts pre).find? (fun m => m.Name = v) = none := by
    rw [List.find?_eq_none]
    intro m' hm'
    obtain ⟨c', hc', hmem⟩ := List.mem_flatMap.1 hm'
    simpa using hpre c' hc' m' hmem
  have h2 : mpre.find? (fun m => decide (m.Name = v)) = none := by
    rw [List.find?_eq_none]
    intro m' hm'
    simpa using hmpre m' hm'
  have h3 : allMounts (pre ++ c :: post) =
      allMounts pre ++ (mpre ++ (m :: (mpost ++ allMounts post))) := by
    simp [allMounts, List.flatMap_append, List.flatMap_cons, hc]
  rw [firstMountNamed, h3, List.find?_append, h1, Option.none_or, List.find?_append, h2,
    Option.none_or, List.find?_cons_of_pos]
  simpa using hm

/-- C15: `getVolume` returns an error exactly when no volume mount of any
container, sidecar or not, has the name; otherwise it returns, unchanged,
the first mount with that name in container order then mount order: the
mount `m` of container `c` when no container before `c` and no mount of `c`
before `m` has the name. -/
theorem getVolume_first_mount (containers : List Container) (volumeName : String) :
    ((∃ err, getVolume containers volumeName = .error err) ↔
        ¬ ∃ c ∈ containers, ∃ m ∈ c.VolumeMounts, m.Name = volumeName) ∧
      (∀ m, getVolume containers volumeName = .ok m ↔
        (containers.flatMap (fun c => c.VolumeMounts)).find?
          (fun m => m.Name = volumeName) = some m) ∧
      (∀ (pre post : List Container) (c : Container) (mpre mpost : List VolumeMount)
          (m : VolumeMount),
        containers = pre ++ c :: post → c.VolumeMounts = mpre ++ m :: mpost →
        m.Name = volumeName →
        (∀ c' ∈ pre, ∀ m' ∈ c'.VolumeMounts, m'.Name ≠ volumeName) →
        (∀ m' ∈ mpre, m'.Name ≠ volumeName) →
        getVolume containers volumeName = .ok m) := by
  refine ⟨?_, ?_, ?_⟩
  · rw [getVolume_eq, ← firstMountNamed_isSome_iff]
    cases firstMountNamed containers volumeName <;> simp
  · intro m
    rw [getVolume_eq]
    change _ ↔ firstMountNamed containers volumeName = some m
    cases firstMountNamed containers volumeName <;> simp
  · intro pre post c mpre mpost m hcs hc hm hpre hmpre
    rw [getVolume_eq, hcs, firstMountNamed_of_position pre post c mpre mpost m volumeName hc hm
      hpre hmpre]

/-! ## Coverage and stale sidecars -/

theorem matchesConfig_iff_literal (c : Container) (config : SidecarConfig) :
    matchesConfig c config = true ↔
      (∃ env ∈ c.Env, env.Name = "PATH_TO_TAIL" ∧ env.Value = config.File) ∧
      (∃ m ∈ c.VolumeMounts, m.Name = config.Volume) :=
  matchesConfig_iff c config

theorem exists_sidecar_after_pass (image hostPathDir : String) (pod : Pod)
    (configs : List SidecarConfig) (config : SidecarConfig) (hc : config ∈ configs)
    (hres : (firstMountNamed pod.Spec.Containers config.Volume).isSome = true) :
    ∃ c ∈ (reconcile image hostPathDir pod configs).Spec.Containers,
      isSidecar c = true ∧ matchesConfig c config = true := by
  have hne : configs ≠ [] := List.ne_nil_of_mem hc
  rw [reconcile_containers image hostPathDir pod configs hne]
  cases hav : isSidecarAvailable pod.Spec.Containers config with
  | true =>
    obtain ⟨c, hcC, hs, hm⟩ := (isSidecarAvailable_iff _ config).1 hav
    refine ⟨c, List.mem_append_left _ (List.mem_flatMap.2 ⟨c, hcC, ?_⟩), hs, hm⟩
    exact (mem_keptCopies configs c c).2 ⟨rfl, Or.inr ⟨config, hc, hm⟩⟩
  | false =>
    have hneed : config ∈ configs.filter (needsSidecar pod.Spec.Containers) := by
      rw [List.mem_filter]
      exact ⟨hc, by simp [needsSidecar, hav, hres]⟩
    rw [← created_configs pod.Spec.Containers
      (getTailingSidecars pod.Spec.Containers).length configs] at hneed
    obtain ⟨t, ht, hteq⟩ := List.mem_map.1 hneed
    have hmatch : matchesConfig (sidecarContainer image t.1 t.2.1.File t.2.2) config =
        true := by
      have h := created_matches image _ _ configs t ht
      rw [hteq] at h ⊢
      exact h
    exact ⟨sidecarContainer image t.1 t.2.1.File t.2.2,
      List.mem_append_right _ (List.mem_map_of_mem _ ht),
      isSidecar_sidecarContainer _ _ _ _, hmatch⟩

/-- C18: for every desired config whose volume some container of the input
Pod mounts, the output of the pass contains at least one container whose name
starts with `tailing-sidecar`, which has an env var `PATH_TO_TAIL` with the
config's file as value and a volume mount with the config's volume name. -/
theorem reconcile_covers_config (image hostPathDir : String) (pod : Pod)
    (configs : List SidecarConfig) (config : SidecarConfig) (hc : config ∈ configs)
    (hm : ∃ c ∈ pod.Spec.Containers, ∃ m ∈ c.VolumeMounts, m.Name = config.Volume) :
    ∃ c ∈ (reconcile image hostPathDir pod configs).Spec.Containers,
      HasPrefix c.Name "tailing-sidecar" = true ∧
      (∃ env ∈ c.Env, env.Name = "PATH_TO_TAIL" ∧ env.Value = config.File) ∧
      (∃ m ∈ c.VolumeMounts, m.Name = config.Volume) := by
  obtain ⟨c, hcout, hs, hmatch⟩ := exists_sidecar_after_pass image hostPathDir pod configs
    config hc ((firstMountNamed_isSome_iff _ _).2 hm)
  exact ⟨c, hcout, hs, (matchesConfig_iff_literal c config).1 hmatch⟩

/-- Scenario A: the theorem at the scenario Pod and its one config. -/
theorem reconcile_covers_config_witness :
    ∃ c ∈ (reconcile "sidecar:1" "/var/log/x" scenarioPod [appConfig]).Spec.Containers,
      HasPrefix c.Name "tailing-sidecar" = true ∧
      (∃ env ∈ c.Env, env.Name = "PATH_TO_TAIL" ∧ env.Value = appConfig.File) ∧
      (∃ m ∈ c.VolumeMounts, m.Name = appConfig.Volume) :=
  reconcile_covers_config "sidecar:1" "/var/log/x" scenarioPod [appConfig] appConfig
    (by decide)
    ⟨appContainer, by decide, { Name := "app-data", MountPath := "/var/log" }, by decide, rfl⟩

/-- C19: with a non-empty desired list every container of the output whose
name starts with `tailing-sidecar` matches at least one desired config (the
config's file is one of its `PATH_TO_TAIL` values and the config's volume is
the name of one of its mounts); with the empty list the pass returns the Pod,
its containers and volumes, unchanged. -/
theorem reconcile_no_stale_sidecar (image hostPathDir : String) (pod : Pod)
    (configs : List SidecarConfig) :
    (configs ≠ [] →
        ∀ c ∈ (reconcile image hostPathDir pod configs).Spec.Containers,
          HasPrefix c.Name "tailing-sidecar" = true →
          ∃ config ∈ configs,
            (∃ env ∈ c.Env, env.Name = "PATH_TO_TAIL" ∧ env.Value = config.File) ∧
            (∃ m ∈ c.VolumeMounts, m.Name = config.Volume)) ∧
      (configs = [] →
        reconcile image hostPathDir pod configs = pod ∧
        (reconcile image hostPathDir pod configs).Spec.Containers = pod.Spec.Containers ∧
        (reconcile image hostPathDir pod configs).Spec.Volumes = pod.Spec.Volumes) := by
  refine ⟨fun hne c hc hs => ?_, fun h => by rw [h, reconcile_nil]; exact ⟨rfl, rfl, rfl⟩⟩
  rw [reconcile_containers image hostPathDir pod configs hne] at hc
  rcases List.mem_append.1 hc with hk | hnew
  · obtain ⟨c', _, hc'⟩ := List.mem_flatMap.1 hk
    obtain ⟨rfl, hor⟩ := (mem_keptCopies configs c c').1 hc'
    rcases hor with hns | ⟨config, hcfg, hmatch⟩
    · have : isSidecar c = true := hs
      rw [hns] at this
      exact absurd this Bool.false_ne_true
    · exact ⟨config, hcfg, (matchesConfig_iff_literal c config).1 hmatch⟩
  · obtain ⟨t, ht, rfl⟩ := List.mem_map.1 hnew
    exact ⟨t.2.1, (created_mem_configs _ _ _ t ht).1,
      (matchesConfig_iff_literal _ _).1 (created_matches image _ _ _ t ht)⟩

/-- The theorem at the Pod Scenario A returns and a desired list that holds
only another config: the one sidecar of the output tails the other file. -/
theorem reconcile_no_stale_sidecar_witness :
    [otherConfig] ≠ [] ∧
      ∀ c ∈ (reconcile "sidecar:1" "/var/log/x" scenarioPodReconciled
          [otherConfig]).Spec.Containers,
        HasPrefix c.Name "tailing-sidecar" = true →
        ∃ config ∈ [otherConfig],
          (∃ env ∈ c.Env, env.Name = "PATH_TO_TAIL" ∧ env.Value = config.File) ∧
          (∃ m ∈ c.VolumeMounts, m.Name = config.Volume) :=
  ⟨by decide, (reconcile_no_stale_sidecar "sidecar:1" "/var/log/x" scenarioPodReconciled
    [otherConfig]).1 (by decide)⟩

/-! ## Consecutive identifiers and the volume list -/

theorem firstMountNamed_isSome_eq_any (C : List Container) (v : String) :
    (firstMountNamed C v).isSome =
      C.any (fun c => c.VolumeMounts.any (fun m => m.Name == v)) := by
  rw [Bool.eq_iff_iff, firstMountNamed_isSome_iff]
  simp [List.any_eq_true]

theorem needsSidecar_eq (C : List Container) :
    needsSidecar C =
      fun u => !isSidecarAvailable C u &&
        C.any (fun c => c.VolumeMounts.any (fun m => m.Name == u.Volume)) := by
  funext u
  rw [needsSidecar, firstMountNamed_isSome_eq_any]

theorem createdBy_length (pod : Pod) (configs : List SidecarConfig) :
    (createdBy pod configs).length =
      (configs.filter (needsSidecar pod.Spec.Containers)).length := by
  rw [← created_configs pod.Spec.Containers
    (getTailingSidecars pod.Spec.Containers).length configs, List.length_map, createdBy]

theorem createdBy_names (image : String) (pod : Pod) (configs : List SidecarConfig) :
    ((createdBy pod configs).map
        (fun t => sidecarContainer image t.1 t.2.1.File t.2.2)).map (fun c => c.Name) =
      (List.range' (getTailingSidecars pod.Spec.Containers).length
        (createdBy pod configs).length).map sidecarContainerName := by
  have h := created_ids pod.Spec.Containers
    (getTailingSidecars pod.Spec.Containers).length configs
  rw [← createdBy] at h
  rw [← h, List.map_map, List.map_map]
  rfl

theorem reconcile_volumes_all (image hostPathDir : String) (pod : Pod)
    (configs : List SidecarConfig) :
    (reconcile image hostPathDir pod configs).Spec.Volumes =
      pod.Spec.Volumes ++ (createdBy pod configs).map (fun t => sidecarVolume hostPathDir t.1) := by
  by_cases h : configs = []
  · rw [h, reconcile_nil]
    simp [createdBy, created]
  · exact reconcile_volumes image hostPathDir pod configs h

/-- C14: let `us` be the configs, in list order, that no sidecar of the Pod
matches and whose volume some container mounts, and `c` the number of
sidecar-prefixed containers of the Pod. The loop creates exactly as many
sidecars as `us` has entries, the j-th one named `tailing-sidecar<c+j>` and
carrying the one env var `PATH_TO_TAIL = us[j].File`, and it ends with the
next identifier `c + us.length`: the other configs consume none. -/
theorem new_sidecars_consecutive (image hostPathDir : String) (pod : Pod)
    (configs : List SidecarConfig) :
    (runConfigLoop image hostPathDir pod configs).containers.length =
        (configs.filter (fun u => !isSidecarAvailable pod.Spec.Containers u &&
          pod.Spec.Containers.any
            (fun c => c.VolumeMounts.any (fun m => m.Name == u.Volume)))).length ∧
      (runConfigLoop image hostPathDir pod configs).containers.map (fun c => c.Name) =
        (List.range' (getTailingSidecars pod.Spec.Containers).length
          (configs.filter (fun u => !isSidecarAvailable pod.Spec.Containers u &&
            pod.Spec.Containers.any
              (fun c => c.VolumeMounts.any (fun m => m.Name == u.Volume)))).length).map
          (fun n => "tailing-sidecar" ++ toString n) ∧
      (runConfigLoop image hostPathDir pod configs).containers.map (fun c => c.Env) =
        (configs.filter (fun u => !isSidecarAvailable pod.Spec.Containers u &&
          pod.Spec.Containers.any
            (fun c => c.VolumeMounts.any (fun m => m.Name == u.Volume)))).map
          (fun u => [{ Name := "PATH_TO_TAIL", Value := u.File }]) ∧
      (runConfigLoop image hostPathDir pod configs).sidecarID =
        (getTailingSidecars pod.Spec.Containers).length +
          (configs.filter (fun u => !isSidecarAvailable pod.Spec.Containers u &&
            pod.Spec.Containers.any
              (fun c => c.VolumeMounts.any (fun m => m.Name == u.Volume)))).length := by
  rw [← needsSidecar_eq, runConfigLoop_eq]
  simp only [List.length_map]
  refine ⟨createdBy_length pod configs, ?_, ?_, by rw [createdBy_length]⟩
  · rw [createdBy_names, createdBy_length]
    rfl
  · rw [← created_configs pod.Spec.Containers
      (getTailingSidecars pod.Spec.Containers).length configs, List.map_map, List.map_map,
      createdBy]
    rfl

/-- C11: the output volume list is the input volume list followed by one
host-path volume per newly created sidecar, in creation order; with `c` the
number of sidecars before the pass, the j-th new container is named
`tailing-sidecar<c+j>`, its volume is named `volume-sidecar<c+j>`, has the
path `hostPathDir/tailing-sidecar<c+j>` and type `DirectoryOrCreate`, and is
the volume the container's second mount names, so that mount refers to a
volume of the output; the new containers end the output container list. -/
theorem reconcile_volume_list (image hostPathDir : String) (pod : Pod)
    (configs : List SidecarConfig) :
    (reconcile image hostPathDir pod configs).Spec.Volumes =
        pod.Spec.Volumes ++
          (List.range' (getTailingSidecars pod.Spec.Containers).length
            (runConfigLoop image hostPathDir pod configs).containers.length).map
            (fun n =>
              { Name := "volume-sidecar" ++ toString n
                VolumeSource :=
                  { HostPath := some
                      { Path := hostPathDir ++ "/" ++ ("tailing-sidecar" ++ toString n)
                        Type_ := some "DirectoryOrCreate" } } }) ∧
      (runConfigLoop image hostPathDir pod configs).containers.map (fun c => c.Name) =
        (List.range' (getTailingSidecars pod.Spec.Containers).length
          (runConfigLoop image hostPathDir pod configs).containers.length).map
          (fun n => "tailing-sidecar" ++ toString n) ∧
      (runConfigLoop image hostPathDir pod configs).containers.map
          (fun c => c.VolumeMounts.drop 1) =
        (List.range' (getTailingSidecars pod.Spec.Containers).length
          (runConfigLoop image hostPathDir pod configs).containers.length).map
          (fun n => [{ Name := "volume-sidecar" ++ toString n
                       MountPath := "/tailing-sidecar/var" }]) ∧
      (∀ c ∈ (runConfigLoop image hostPathDir pod configs).containers,
        ∃ first staging, c.VolumeMounts = [first, staging] ∧
          ∃ v ∈ (reconcile image hostPathDir pod configs).Spec.Volumes,
            v.Name = staging.Name) ∧
      (configs ≠ [] →
        (reconcile image hostPathDir pod configs).Spec.Containers =
          removeDeletedSidecars pod.Spec.Containers configs ++
            (runConfigLoop image hostPathDir pod configs).containers) := by
  have hids := created_ids pod.Spec.Containers
    (getTailingSidecars pod.Spec.Containers).length configs
  rw [← createdBy] at hids
  rw [reconcile_volumes_all, runConfigLoop_eq]
  simp only [List.length_map]
  refine ⟨?_, ?_, ?_, ?_, ?_⟩
  · rw [← hids, List.map_map]
    rfl
  · rw [createdBy_names]
    rfl
  · rw [← hids, List.map_map, List.map_map]
    rfl
  · intro c hc
    obtain ⟨t, ht, rfl⟩ := List.mem_map.1 hc
    refine ⟨t.2.2, { Name := hostPathVolumeName t.1, MountPath := hostPathMountPath }, rfl,
      sidecarVolume hostPathDir t.1, ?_, rfl⟩
    exact List.mem_append_right _ (List.mem_map_of_mem _ ht)
  · intro hne
    rw [reconcile_containers image hostPathDir pod configs hne, removeDeletedSidecars_eq]

/-! ## The handler: lookup errors and the trigger annotation -/

theorem Handle_eq_of_decode (e : PodExtender) (req : Request) (pod : Pod)
    (hd : e.decode req = .ok pod) :
    Handle e req =
      match e.marshal (extendPod e pod) with
      | .error err => .Errored 500 err
      | .ok marshaledPod => .PatchResponseFromRaw req.Raw marshaledPod := by
  simp only [Handle, hd]

theorem extendPod_with_trigger (e : PodExtender) (pod : Pod)
    (ha : (pod.ObjectMeta.Annotations.lookup e.sidecarAnnotation).isSome = true) :
    extendPod e pod =
      reconcile e.TailingSidecarImage (setHostPath pod e.token) pod
        (e.getConfigs pod.ObjectMeta.Annotations
          (joinTailinSidecarConfigs (e.list pod.ObjectMeta.Namespace).1)) := by
  simp only [extendPod, ha, if_true]

theorem extendPod_without_trigger (e : PodExtender) (pod : Pod)
    (ha : pod.ObjectMeta.Annotations.lookup e.sidecarAnnotation = none) :
    extendPod e pod = pod := by
  simp [extendPod, ha]

/-- C12: for a Pod that carries the trigger annotation, `Handle` answers the
same when the lookup returns the items together with an error as when it
returns the same items without error (the empty list included), and the
answer is the patch response of the Pod reconciled with the configs of those
items whenever that Pod marshals: the lookup error yields no error
response. -/
theorem Handle_ignores_lookup_error (e : PodExtender) (req : Request) (pod : Pod)
    (items : List TailingSidecarResource) (err : String)
    (hd : e.decode req = .ok pod)
    (ha : (pod.ObjectMeta.Annotations.lookup e.sidecarAnnotation).isSome = true) :
    Handle { e with list := fun _ => (items, some err) } req =
        Handle { e with list := fun _ => (items, none) } req ∧
      ∀ marshaledPod,
        e.marshal (reconcile e.TailingSidecarImage (setHostPath pod e.token) pod
          (e.getConfigs pod.ObjectMeta.Annotations (joinTailinSidecarConfigs items))) =
            .ok marshaledPod →
        Handle { e with list := fun _ => (items, some err) } req =
          .PatchResponseFromRaw req.Raw marshaledPod := by
  refine ⟨rfl, ?_⟩
  intro marshaledPod hmar
  have h1 := Handle_eq_of_decode { e with list := fun _ => (items, some err) } req pod hd
  have h2 := extendPod_with_trigger { e with list := fun _ => (items, some err) } pod ha
  rw [h1, h2]
  simp only [hmar]

/-- Scenario A through the handler: the lookup returns the scenario resource
together with an error. -/
theorem Handle_ignores_lookup_error_witness :
    Handle { scenarioExtender with
        list := fun _ => ([scenarioResource], some "context deadline exceeded") }
        scenarioRequest =
      Handle { scenarioExtender with list := fun _ => ([scenarioResource], none) }
        scenarioRequest ∧
    Handle { scenarioExtender with
        list := fun _ => ([scenarioResource], some "context deadline exceeded") }
        scenarioRequest = .PatchResponseFromRaw "app" "app,tailing-sidecar0" :=
  ⟨(Handle_ignores_lookup_error scenarioExtender scenarioRequest annotatedPod
      [scenarioResource] "context deadline exceeded" rfl (by decide)).1,
    (Handle_ignores_lookup_error scenarioExtender scenarioRequest annotatedPod
      [scenarioResource] "context deadline exceeded" rfl (by decide)).2
      "app,tailing-sidecar0" rfl⟩

/-- C13: for a Pod whose annotations lack the trigger key, the Pod `Handle`
marshals is the decoded Pod itself, the answer is decided by marshalling that
Pod alone, and it is the same whatever the lookup returns and whatever
`getConfigs`, the image and the token are: neither the lookup nor the pass
contributes. -/
theorem Handle_without_trigger (e : PodExtender) (req : Request) (pod : Pod)
    (hd : e.decode req = .ok pod)
    (ha : e.sidecarAnnotation ∉ pod.ObjectMeta.Annotations) :
    extendPod e pod = pod ∧
      Handle e req =
        (match e.marshal pod with
          | .error err => .Errored 500 err
          | .ok marshaledPod => .PatchResponseFromRaw req.Raw marshaledPod) ∧
      ∀ (list : String → List TailingSidecarResource × Option String)
        (getConfigs : AList (fun _ : String => String) → ConfigMap → List SidecarConfig)
        (image token : String),
        Handle { e with list := list, getConfigs := getConfigs,
                        TailingSidecarImage := image, token := token } req =
          Handle e req := by
  have hnone : pod.ObjectMeta.Annotations.lookup e.sidecarAnnotation = none :=
    AList.lookup_eq_none.2 ha
  have hext := extendPod_without_trigger e pod hnone
  refine ⟨hext, ?_, ?_⟩
  · rw [Handle_eq_of_decode e req pod hd, hext]
  · intro list getConfigs image token
    have h1 := Handle_eq_of_decode
      { e with list := list, getConfigs := getConfigs,
               TailingSidecarImage := image, token := token } req pod hd
    have h2 := extendPod_without_trigger
      { e with list := list, getConfigs := getConfigs,
               TailingSidecarImage := image, token := token } pod hnone
    rw [h1, h2, Handle_eq_of_decode e req pod hd, hext]

/-- Scenario E: the scenario Pod carries no annotation. -/
theorem Handle_without_trigger_witness :
    extendPod plainExtender scenarioPod = scenarioPod ∧
      Handle plainExtender scenarioRequest = .PatchResponseFromRaw "app" "app" :=
  ⟨(Handle_without_trigger plainExtender scenarioRequest scenarioPod rfl
      (by simp [plainExtender, scenarioExtender, scenarioPod])).1,
    ((Handle_without_trigger plainExtender scenarioRequest scenarioPod rfl
      (by simp [plainExtender, scenarioExtender, scenarioPod])).2.1).trans (by decide)⟩

/-! ## Host path of a Pod without a name -/

theorem rdropWhile_append_replicate (l : List Char) :
    ∃ k, l = l.rdropWhile (fun ch => "-".data.contains ch) ++ List.replicate k '-' := by
  induction l using List.reverseRecOn with
  | nil => exact ⟨0, by simp⟩
  | append_singleton l x ih =>
    by_cases hx : (fun ch => "-".data.contains ch) x = true
    · obtain ⟨k, hk⟩ := ih
      refine ⟨k + 1, ?_⟩
      rw [List.rdropWhile_concat_pos _ _ _ hx]
      have hx' : x = '-' := by simpa using hx
      rw [List.replicate_succ', ← List.append_assoc, ← hk, hx']
    · refine ⟨0, ?_⟩
      rw [List.rdropWhile_concat_neg _ _ _ hx]
      simp

theorem rdropWhile_getLast (l : List Char) :
    (l.rdropWhile (fun ch => "-".data.contains ch)).getLast? ≠ some '-' := by
  intro h
  have hne : l.rdropWhile (fun ch => "-".data.contains ch) ≠ [] := by
    intro h0; rw [h0] at h; simp at h
  have hlast := List.rdropWhile_last_not (fun ch => "-".data.contains ch) l hne
  rw [List.getLast?_eq_getLast _ hne] at h
  injection h with h
  rw [h] at hlast
  exact hlast (by decide)

/-- C16: for a Pod whose namespace or name is empty, `setHostPath` returns
`/var/log/tailing-sidecar-fluentbit/p/t`, `t` being the generated token and
`p` the generate-name without its trailing `-` characters: the generate-name
is `p` followed by some number of `-`, and `p` does not end in `-`. -/
theorem setHostPath_fallback (pod : Pod) (token : String)
    (h : pod.ObjectMeta.Namespace = "" ∨ pod.ObjectMeta.Name = "") :
    setHostPath pod token =
        "/var/log/tailing-sidecar-fluentbit/" ++ TrimRight pod.ObjectMeta.GenerateName "-" ++
          "/" ++ token ∧
      (∃ k, pod.ObjectMeta.GenerateName =
        TrimRight pod.ObjectMeta.GenerateName "-" ++ String.mk (List.replicate k '-')) ∧
      (TrimRight pod.ObjectMeta.GenerateName "-").data.getLast? ≠ some '-' := by
  refine ⟨?_, ?_, ?_⟩
  · have hn : ¬ (pod.ObjectMeta.Namespace ≠ "" ∧ pod.ObjectMeta.Name ≠ "") := by
      rintro ⟨h1, h2⟩
      rcases h with h | h
      · exact h1 h
      · exact h2 h
    rw [setHostPath, if_neg hn]
    rfl
  · obtain ⟨k, hk⟩ := rdropWhile_append_replicate pod.ObjectMeta.GenerateName.data
    refine ⟨k, String.ext ?_⟩
    rw [String.data_append]
    exact hk
  · exact rdropWhile_getLast pod.ObjectMeta.GenerateName.data

/-- The theorem at a Pod created from a template, whose generate-name ends
in two separators. -/
theorem setHostPath_fallback_witness :
    setHostPath generatedPod "0b5c" = "/var/log/tailing-sidecar-fluentbit/web-7d9f/0b5c" ∧
      TrimRight generatedPod.ObjectMeta.GenerateName "-" = "web-7d9f" :=
  ⟨(setHostPath_fallback generatedPod "0b5c" (Or.inr rfl)).1.trans (by decide), by decide⟩

/-! ## Container names after a removal -/

/-- C17 at a Pod the passes themselves produce: from the scenario Pod, a
pass for the application log and the other file builds `tailing-sidecar0` and
`tailing-sidecar1`, a pass for the other file alone removes
`tailing-sidecar0`, and the container names are still pairwise distinct. The
next pass, for both files again, counts one sidecar, so it names the new
container `tailing-sidecar1` like the one it keeps: the output holds two
containers of that name. -/
theorem new_sidecar_takes_kept_name :
    (reconcile "sidecar:1" (setHostPath scenarioPod "t0")
        (reconcile "sidecar:1" (setHostPath scenarioPod "t0") scenarioPod
          [appConfig, otherConfig])
        [otherConfig]).Spec = podAfterRemoval.Spec ∧
      (podAfterRemoval.Spec.Containers.map (fun c => c.Name)).Nodup ∧
      (getTailingSidecars podAfterRemoval.Spec.Containers).length = 1 ∧
      (reconcile "sidecar:1" (setHostPath podAfterRemoval "t0") podAfterRemoval
        [otherConfig, appConfig]).Spec.Containers.map (fun c => c.Name) =
        ["app", "tailing-sidecar1", "tailing-sidecar1"] ∧
      ¬ ((reconcile "sidecar:1" (setHostPath podAfterRemoval "t0") podAfterRemoval
        [otherConfig, appConfig]).Spec.Containers.map (fun c => c.Name)).Nodup := by
  decide

end TailingSidecar
